import Mathlib

/-!
Verification of the channel and select runtime exercised by
`testdata/channel.go`.  The repository ships only the behavioural test
fixture and an interrupt stub; the scheduler, channel implementation and
select evaluator themselves are modelled from the specification
(sections 3 and 4.1-4.4): channels are typed rendezvous objects with a
bounded ring buffer, a closed flag and FIFO wait-queues of parked tasks,
and select builds a transient registration across several channels,
resolves exactly one ready case and tears the rest down.  Values carried
on channels are integers (`Int`), the element type used throughout the
fixture; the zero value of the element type is `0`.
-/

/-- Task identifiers: index into the system's task list. -/
abbrev TaskId := Nat

/-- Channel identifiers: index into the system's channel list. -/
abbrev ChanId := Nat

/-- Modelled from the spec: the direction of a select case (send or
receive), spec section 3, "Select Registration". -/
inductive Dir where
  | dsend
  | drecv
deriving DecidableEq, Repr

/-- Modelled from the spec: one candidate case of a Select registration,
"tagged {channel, direction (send|receive), payload-for-send}"
(spec section 3). -/
structure SCase where
  ch : ChanId
  dir : Dir
  val : Int
deriving DecidableEq, Repr

/-- Modelled from the spec: the operations a task may request from the
core (spec sections 4.1, 4.2 and 4.4): finishing, a channel send, a
channel receive, closing a channel, or a select over a list of cases
with an optional default. -/
inductive Act where
  | aDone
  | aSend (c : ChanId) (v : Int)
  | aRecv (c : ChanId)
  | aClose (c : ChanId)
  | aSelect (cases : List SCase) (hasDefault : Bool)
deriving DecidableEq, Repr

/-- Modelled from the spec: an entry of a per-channel wait-queue
(spec section 4.3): either a plain blocked sender carrying its value, a
plain blocked receiver, or a select registration handle tagged with the
owning task and the index of the case it stands for. -/
inductive Waiter where
  | wSend (t : TaskId) (v : Int)
  | wRecv (t : TaskId)
  | wSelSend (t : TaskId) (i : Nat) (v : Int)
  | wSelRecv (t : TaskId) (i : Nat)
deriving DecidableEq, Repr

/-- Task handle stored in a wait-queue entry. -/
def Waiter.tid : Waiter → TaskId
  | .wSend t _ => t
  | .wRecv t => t
  | .wSelSend t _ _ => t
  | .wSelRecv t _ => t

/-- Value carried by a sender-side wait-queue entry (0 for receivers). -/
def Waiter.sval : Waiter → Int
  | .wSend _ v => v
  | .wSelSend _ _ v => v
  | _ => 0

/-- Case index carried by a select wait-queue entry (0 for plain ones). -/
def Waiter.cidx : Waiter → Nat
  | .wSelSend _ i _ => i
  | .wSelRecv _ i => i
  | _ => 0

/-- Whether a wait-queue entry is a select registration of task `t`. -/
def Waiter.isSelOf (t : TaskId) : Waiter → Bool
  | .wSelSend t' _ _ => t' = t
  | .wSelRecv t' _ => t' = t
  | _ => false

/-- Modelled from the spec: a channel (spec section 3, "Channel<T>"):
capacity (`0` = unbuffered), ordered buffer of length at most `cap`, a
monotonic closed flag, and FIFO wait-queues of blocked senders and
receivers. -/
structure Chn where
  cap : Nat
  buf : List Int
  closed : Bool
  sendq : List Waiter
  recvq : List Waiter
deriving DecidableEq, Repr

/-- Modelled from the spec: `make(chan T, cap)` creates a channel with
an empty buffer, not closed, and empty wait-queues. -/
def mkChan (cap : Nat) : Chn :=
  ⟨cap, [], false, [], []⟩

/-- Modelled from the spec: runtime status of a task (spec section 3,
"Task handle"): runnable with local state `s`, blocked as a plain sender
or receiver, blocked on a select registration, done, or terminated by a
`ClosedChannelError`/`DoubleCloseError` (spec section 7). -/
inductive TStat (σ : Type) where
  | run (s : σ)
  | bSend (c : ChanId) (v : Int) (s : σ)
  | bRecv (c : ChanId) (s : σ)
  | bSel (cases : List SCase) (s : σ)
  | done (s : σ)
  | errored
deriving DecidableEq, Repr

/-- Modelled from the spec: the whole-system state, a list of channels
and the statuses of all tasks. -/
structure Sys (σ : Type) where
  chans : List Chn
  tasks : List (TStat σ)
deriving DecidableEq, Repr

/-- Modelled from the spec: a task's behaviour as a state machine over
local state `σ`: `next` is the operation the task requests when it is
scheduled, `after` advances the local state with the completed
operation's result (winning case index, received value, ok flag). -/
structure TaskSys (σ : Type) where
  next : σ → Act
  after : σ → Nat → Int → Bool → σ

/-- Channel lookup; `mkChan 0` for an out-of-range identifier. -/
def Sys.getCh {σ : Type} (sys : Sys σ) (c : ChanId) : Chn :=
  (sys.chans[c]?).getD (mkChan 0)

/-- Replace channel `c`. -/
def Sys.setCh {σ : Type} (sys : Sys σ) (c : ChanId) (ch : Chn) : Sys σ :=
  { sys with chans := sys.chans.set c ch }

/-- Replace the status of task `t`. -/
def Sys.setTask {σ : Type} (sys : Sys σ) (t : TaskId) (st : TStat σ) : Sys σ :=
  { sys with tasks := sys.tasks.set t st }

/-- Modelled from the spec: select teardown (spec sections 4.3 and 4.4):
remove every select registration owned by task `t` from every channel's
wait-queues. -/
def teardown {σ : Type} (sys : Sys σ) (t : TaskId) : Sys σ :=
  { sys with
    chans := sys.chans.map fun ch =>
      { ch with
        sendq := ch.sendq.filter (fun w => !w.isSelOf t),
        recvq := ch.recvq.filter (fun w => !w.isSelOf t) } }

/-- Modelled from the spec: deliver value `v` (with flag `ok`) to a
receiver-side waiter and resume it (spec sections 4.1 and 4.2).  Resume
is idempotent: a waiter whose task is not blocked in the matching state
is skipped.  Waking a select registration claims that case as the winner
and tears down the registration from all other wait-queues before the
task resumes. -/
def wakeRecvWaiter {σ : Type} (T : TaskSys σ) (sys : Sys σ) (w : Waiter)
    (v : Int) (ok : Bool) : Sys σ :=
  match w with
  | .wRecv t =>
    match sys.tasks[t]? with
    | some (.bRecv _ s) => sys.setTask t (.run (T.after s 0 v ok))
    | _ => sys
  | .wSelRecv t i =>
    match sys.tasks[t]? with
    | some (.bSel _ s) => (teardown sys t).setTask t (.run (T.after s i v ok))
    | _ => sys
  | _ => sys

/-- Modelled from the spec: resume a sender-side waiter whose value has
just been taken (spec section 4.2).  A plain sender resumes normally; a
select registration claims its case as the winner and is torn down. -/
def wakeSendWaiter {σ : Type} (T : TaskSys σ) (sys : Sys σ) (w : Waiter) : Sys σ :=
  match w with
  | .wSend t _ =>
    match sys.tasks[t]? with
    | some (.bSend _ _ s) => sys.setTask t (.run (T.after s 0 0 true))
    | _ => sys
  | .wSelSend t i _ =>
    match sys.tasks[t]? with
    | some (.bSel _ s) => (teardown sys t).setTask t (.run (T.after s i 0 true))
    | _ => sys
  | _ => sys

/-- Modelled from the spec: resume a queued sender with a "send onto
closed channel" failure (spec section 4.2, `close`). -/
def failSendWaiter {σ : Type} (sys : Sys σ) (w : Waiter) : Sys σ :=
  match w with
  | .wSend t _ =>
    match sys.tasks[t]? with
    | some (.bSend _ _ _) => sys.setTask t .errored
    | _ => sys
  | .wSelSend t _ _ =>
    match sys.tasks[t]? with
    | some (.bSel _ _) => (teardown sys t).setTask t .errored
    | _ => sys
  | _ => sys

/-- Modelled from the spec: the non-blocking part of `send(ch, value)`
(spec section 4.2): on a closed channel the sender fails; with buffer
room the value is appended and a queued receiver, if any, is resumed
with the oldest buffered value; with no room but a queued receiver the
value is handed over directly (rendezvous).  `none` when the send would
block.  `i` is the case index reported to `after` (0 for a plain send). -/
def sendNow {σ : Type} (T : TaskSys σ) (sys : Sys σ) (t : TaskId) (s : σ)
    (c : ChanId) (v : Int) (i : Nat) : Option (Sys σ) :=
  match sys.chans[c]? with
  | none => none
  | some ch =>
    if ch.closed then
      some (sys.setTask t .errored)
    else if ch.buf.length < ch.cap then
      match ch.recvq with
      | [] =>
        some ((sys.setCh c { ch with buf := ch.buf ++ [v] }).setTask t
          (.run (T.after s i 0 true)))
      | w :: rq =>
        let nb := ch.buf ++ [v]
        let sys1 := sys.setCh c { ch with buf := nb.tail, recvq := rq }
        some ((wakeRecvWaiter T sys1 w (nb.headD 0) true).setTask t
          (.run (T.after s i 0 true)))
    else
      match ch.recvq with
      | w :: rq =>
        let sys1 := sys.setCh c { ch with recvq := rq }
        some ((wakeRecvWaiter T sys1 w v true).setTask t
          (.run (T.after s i 0 true)))
      | [] => none

/-- Modelled from the spec: the non-blocking part of `receive(ch)`
(spec section 4.2): pop the oldest buffered value and refill the freed
slot from the oldest queued sender; or take a queued sender's value
directly; or report closed-and-drained as the zero value with ok=false.
`none` when the receive would block. -/
def recvNow {σ : Type} (T : TaskSys σ) (sys : Sys σ) (t : TaskId) (s : σ)
    (c : ChanId) (i : Nat) : Option (Sys σ) :=
  match sys.chans[c]? with
  | none => none
  | some ch =>
    match ch.buf with
    | v :: bs =>
      match ch.sendq with
      | [] =>
        some ((sys.setCh c { ch with buf := bs }).setTask t
          (.run (T.after s i v true)))
      | w :: sq =>
        let sys1 := sys.setCh c { ch with buf := bs ++ [w.sval], sendq := sq }
        some ((wakeSendWaiter T sys1 w).setTask t (.run (T.after s i v true)))
    | [] =>
      match ch.sendq with
      | w :: sq =>
        let sys1 := sys.setCh c { ch with sendq := sq }
        some ((wakeSendWaiter T sys1 w).setTask t
          (.run (T.after s i w.sval true)))
      | [] =>
        if ch.closed then
          some (sys.setTask t (.run (T.after s i 0 false)))
        else none

/-- Modelled from the spec: `send(ch, value)` (spec section 4.2): the
non-blocking completion if possible, otherwise the caller is enqueued
onto `send_waiters` carrying the value and blocks. -/
def doSend {σ : Type} (T : TaskSys σ) (sys : Sys σ) (t : TaskId) (s : σ)
    (c : ChanId) (v : Int) : Sys σ :=
  match sendNow T sys t s c v 0 with
  | some sys2 => sys2
  | none =>
    match sys.chans[c]? with
    | some ch =>
      (sys.setCh c { ch with sendq := ch.sendq ++ [.wSend t v] }).setTask t
        (.bSend c v s)
    | none => sys

/-- Modelled from the spec: `receive(ch)` (spec section 4.2): the
non-blocking completion if possible, otherwise the caller is enqueued
onto `recv_waiters` and blocks. -/
def doRecv {σ : Type} (T : TaskSys σ) (sys : Sys σ) (t : TaskId) (s : σ)
    (c : ChanId) : Sys σ :=
  match recvNow T sys t s c 0 with
  | some sys2 => sys2
  | none =>
    match sys.chans[c]? with
    | some ch =>
      (sys.setCh c { ch with recvq := ch.recvq ++ [.wRecv t] }).setTask t
        (.bRecv c s)
    | none => sys

/-- Modelled from the spec: resume every queued receiver of a channel
being closed, so that each observes a remaining buffered value (FIFO
drain) or the closed-empty terminal state (spec section 4.2, `close`). -/
def flushReceivers {σ : Type} (T : TaskSys σ) (sys : Sys σ) (c : ChanId) :
    List Waiter → Sys σ
  | [] => sys
  | w :: ws =>
    match sys.chans[c]? with
    | none => sys
    | some ch =>
      match ch.buf with
      | v :: bs =>
        flushReceivers T (wakeRecvWaiter T (sys.setCh c { ch with buf := bs }) w v true) c ws
      | [] => flushReceivers T (wakeRecvWaiter T sys w 0 false) c ws

/-- Modelled from the spec: resume every queued sender of a channel
being closed with a "send onto closed channel" failure (spec
section 4.2, `close`). -/
def flushSenders {σ : Type} (sys : Sys σ) : List Waiter → Sys σ
  | [] => sys
  | w :: ws => flushSenders (failSendWaiter sys w) ws

/-- Modelled from the spec: `close(ch)` (spec section 4.2): closing an
already-closed channel fails with `DoubleCloseError`; otherwise the
closed flag is set, every queued sender is resumed with a failure and
every queued receiver is resumed against the remaining buffer. -/
def doClose {σ : Type} (T : TaskSys σ) (sys : Sys σ) (t : TaskId) (s : σ)
    (c : ChanId) : Sys σ :=
  match sys.chans[c]? with
  | none => sys
  | some ch =>
    if ch.closed then sys.setTask t .errored
    else
      let sys1 := sys.setCh c { ch with closed := true, sendq := [], recvq := [] }
      let sys2 := flushSenders sys1 ch.sendq
      let sys3 := flushReceivers T sys2 c ch.recvq
      sys3.setTask t (.run (T.after s 0 0 true))

/-- Modelled from the spec: the select evaluator's ProbeImmediate test
(spec section 4.4): whether a case can complete right now against the
channel's current buffer/waiter state. -/
def caseReady {σ : Type} (sys : Sys σ) (cs : SCase) : Bool :=
  match sys.chans[cs.ch]? with
  | none => false
  | some ch =>
    match cs.dir with
    | .dsend => ch.closed || decide (ch.buf.length < ch.cap) || !ch.recvq.isEmpty
    | .drecv => !ch.buf.isEmpty || !ch.sendq.isEmpty || ch.closed

/-- Modelled from the spec: the Register phase of select (spec
section 4.4): enqueue the shared registration on every candidate
channel's relevant wait-queue, in case order starting at index `i`. -/
def registerCases {σ : Type} (sys : Sys σ) (t : TaskId) (i : Nat) :
    List SCase → Sys σ
  | [] => sys
  | cs :: rest =>
    let sys1 :=
      match sys.chans[cs.ch]? with
      | none => sys
      | some ch =>
        match cs.dir with
        | .dsend => sys.setCh cs.ch { ch with sendq := ch.sendq ++ [.wSelSend t i cs.val] }
        | .drecv => sys.setCh cs.ch { ch with recvq := ch.recvq ++ [.wSelRecv t i] }
    registerCases sys1 t (i + 1) rest

/-- Modelled from the spec: fire select case `i` immediately (spec
section 4.4, a case that ProbeImmediate found ready). -/
def fireCase {σ : Type} (T : TaskSys σ) (sys : Sys σ) (t : TaskId) (s : σ)
    (i : Nat) (cs : SCase) : Sys σ :=
  match cs.dir with
  | .dsend => (sendNow T sys t s cs.ch cs.val i).getD sys
  | .drecv => (recvNow T sys t s cs.ch i).getD sys

/-- Modelled from the spec: the select evaluator (spec section 4.4):
probe all cases, choose among the immediately ready ones (`choice`
resolves the nondeterministic pick), else take the default if present,
else register on every candidate channel and block. -/
def doSelect {σ : Type} (T : TaskSys σ) (sys : Sys σ) (t : TaskId) (s : σ)
    (cases : List SCase) (hasDefault : Bool) (choice : Nat) : Sys σ :=
  let idxs := (List.range cases.length).filter fun i =>
    match cases[i]? with
    | some cs => caseReady sys cs
    | none => false
  match idxs with
  | [] =>
    if hasDefault then sys.setTask t (.run (T.after s cases.length 0 false))
    else (registerCases sys t 0 cases).setTask t (.bSel cases s)
  | _ :: _ =>
    let i := idxs.getD (choice % idxs.length) 0
    match cases[i]? with
    | some cs => fireCase T sys t s i cs
    | none => sys

/-- Modelled from the spec: one scheduler step (spec section 4.1): run
the requested operation of task `t` if it is runnable; `none` when `t`
is blocked, done, errored or out of range.  `choice` resolves the
nondeterministic pick among ready select cases. -/
def step {σ : Type} (T : TaskSys σ) (sys : Sys σ) (t : TaskId) (choice : Nat) :
    Option (Sys σ) :=
  match sys.tasks[t]? with
  | some (.run s) =>
    match T.next s with
    | .aDone => some (sys.setTask t (.done s))
    | .aSend c v => some (doSend T sys t s c v)
    | .aRecv c => some (doRecv T sys t s c)
    | .aClose c => some (doClose T sys t s c)
    | .aSelect cases hasDefault => some (doSelect T sys t s cases hasDefault choice)
  | _ => none

/-- Modelled from the spec: run a schedule, a list of (task, choice)
pairs; a pair whose task cannot step is skipped, so quantifying over all
schedules quantifies over all interleavings. -/
def execSched {σ : Type} (T : TaskSys σ) (sys : Sys σ) :
    List (TaskId × Nat) → Sys σ
  | [] => sys
  | (t, ch) :: l => execSched T ((step T sys t ch).getD sys) l

/-- Log entry of a completed operation: (case index, value, ok flag).
Plain sends and receives report case index 0; a select reports the
winning case's index (or the number of cases for the default). -/
abbrev OpRes := Nat × Int × Bool

/-- Local state of a scripted task: script id, program counter, and the
log of completed operations' results. -/
abbrev ScriptSt := Nat × Nat × List OpRes

/-- Task system driven by per-task scripts, mirroring the straight-line
goroutine bodies of `testdata/channel.go`: the act requested at each
program counter is given by the script, and every completed operation
appends its result to the task's log. -/
def scripted (script : Nat → Nat → Act) : TaskSys ScriptSt where
  next := fun st => script st.1 st.2.1
  after := fun st i v ok => (st.1, st.2.1 + 1, st.2.2 ++ [(i, v, ok)])

/-- Modelled from the spec: channel creation at the system level.  A
channel reference is `Option ChanId` — the nil channel is `none`, and
`make(chan T, cap)` allocates a fresh channel and always returns a
non-nil reference to it. -/
def allocChan {σ : Type} (sys : Sys σ) (cap : Nat) : Sys σ × Option ChanId :=
  ({ sys with chans := sys.chans ++ [mkChan cap] }, some sys.chans.length)

/-- Number of buffered elements behind a channel reference (`len`). -/
def chanLen {σ : Type} (sys : Sys σ) : Option ChanId → Nat
  | none => 0
  | some c => (sys.getCh c).buf.length

/-- Capacity behind a channel reference (`cap`). -/
def chanCap {σ : Type} (sys : Sys σ) : Option ChanId → Nat
  | none => 0
  | some c => (sys.getCh c).cap

/-- Nil test on a channel reference (`ch == nil`). -/
def isNilChan : Option ChanId → Bool :=
  Option.isNone

/-- C10: a channel freshly created with capacity 0 starts with length 0
and capacity 0, and the nil-channel comparison on it is false, before
any send, receive or close is performed on it. -/
theorem freshChan_len_cap_notNil {σ : Type} (sys : Sys σ) :
    chanLen (allocChan sys 0).1 (allocChan sys 0).2 = 0 ∧
    chanCap (allocChan sys 0).1 (allocChan sys 0).2 = 0 ∧
    isNilChan (allocChan sys 0).2 = false := by
  refine ⟨?_, ?_, rfl⟩ <;>
    simp [allocChan, chanLen, chanCap, Sys.getCh, mkChan]

/-- C10 witness: the fresh-channel observation evaluated in the empty
system. -/
theorem freshChan_len_cap_notNil_example :
    chanLen (allocChan (⟨[], []⟩ : Sys Unit) 0).1 (allocChan (⟨[], []⟩ : Sys Unit) 0).2 = 0 :=
  (freshChan_len_cap_notNil (⟨[], []⟩ : Sys Unit)).1

/-- Script of the non-concurrent buffered-channel scenario of
`testdata/channel.go` lines 158-171: on a capacity-2 channel, send 1 and
2, receive twice, send 3 and 4, close, then receive three times. -/
def script7 : Nat → Nat → Act := fun _ pc =>
  match pc with
  | 0 => .aSend 0 1
  | 1 => .aSend 0 2
  | 2 => .aRecv 0
  | 3 => .aRecv 0
  | 4 => .aSend 0 3
  | 5 => .aSend 0 4
  | 6 => .aClose 0
  | 7 => .aRecv 0
  | 8 => .aRecv 0
  | 9 => .aRecv 0
  | _ => .aDone

/-- Initial state of the capacity-2 scenario: one capacity-2 channel and
the single main task. -/
def sys7 : Sys ScriptSt :=
  ⟨[mkChan 2], [.run (0, 0, [])]⟩

/-- C7: on a capacity-2 channel with no concurrent receiver, sending 1
and 2 completes without blocking (the single task advances through both
sends — had any operation blocked, the lone task could never advance);
after draining 1 and 2, sending 3 and 4 and closing leaves 3 and 4
receivable in order, after which a further receive reports the zero
value with ok=false. -/
theorem bufferedChan_scenario :
    execSched (scripted script7) sys7 (List.replicate 10 (0, 0)) =
      ⟨[⟨2, [], true, [], []⟩],
       [.run (0, 10,
          [(0, 0, true), (0, 0, true), (0, 1, true), (0, 2, true),
           (0, 0, true), (0, 0, true), (0, 0, true), (0, 3, true),
           (0, 4, true), (0, 0, false)])]⟩ := by
  rfl

/-- Cases of the three-way select of `testdata/channel.go` lines
124-131: a send to an always-unready channel, a receive from the channel
that is fed after a delay, and a receive from a never-ready channel. -/
def selCases4 : List SCase :=
  [⟨0, .dsend, 3⟩, ⟨1, .drecv, 0⟩, ⟨2, .drecv, 0⟩]

/-- Scripts of the delayed-feed select scenario: task 0 runs the
three-way select; task 1 (the delayed feeder) sends 55 on channel 1. -/
def script4 : Nat → Nat → Act := fun sid pc =>
  match sid, pc with
  | 0, 0 => .aSelect selCases4 false
  | 1, 0 => .aSend 1 55
  | _, _ => .aDone

/-- Initial state of the delayed-feed select scenario: three unbuffered
channels, the selecting task and the feeder task. -/
def sys4 : Sys ScriptSt :=
  ⟨[mkChan 0, mkChan 0, mkChan 0], [.run (0, 0, []), .run (1, 0, [])]⟩

/-- State of the delayed-feed scenario after the select ran and found no
ready case: the selecting task is parked with its registration enqueued
on all three channels. -/
def sys4Blocked : Sys ScriptSt :=
  ⟨[⟨0, [], false, [.wSelSend 0 0 3], []⟩,
    ⟨0, [], false, [], [.wSelRecv 0 1]⟩,
    ⟨0, [], false, [], [.wSelRecv 0 2]⟩],
   [.bSel selCases4 (0, 0, []), .run (1, 0, [])]⟩

/-- C4: the three-way select (send to an always-unready channel, receive
from the delayed-fed channel, receive from a never-ready channel) first
blocks — the selecting task is parked with registrations on all three
channels and cannot step — and once the delayed feed of 55 arrives it
resolves with exactly the fed case (index 1) and its value: the task's
log shows that single result and no other case ever executed, and every
registration has been torn down from every wait-queue. -/
theorem select_blocksThenResolvesFedCase :
    step (scripted script4) sys4 0 0 = some sys4Blocked ∧
    step (scripted script4) sys4Blocked 0 0 = none ∧
    execSched (scripted script4) sys4 [(0, 0), (1, 0)] =
      ⟨[mkChan 0, mkChan 0, mkChan 0],
       [.run (0, 1, [(1, 55, true)]), .run (1, 1, [(0, 0, true)])]⟩ := by
  exact ⟨rfl, rfl, rfl⟩

/-- Composition of schedules: running a concatenated schedule runs the
two halves in sequence. -/
theorem execSched_append {σ : Type} (T : TaskSys σ) (sys : Sys σ)
    (l1 l2 : List (TaskId × Nat)) :
    execSched T sys (l1 ++ l2) = execSched T (execSched T sys l1) l2 := by
  induction l1 generalizing sys with
  | nil => rfl
  | cons p l ih => cases p; simp only [List.cons_append, execSched]; exact ih _

/-- Local state of the close-drain scenario task: sending a list of
values, then (after the close) receiving forever and logging each
received (value, ok) pair. -/
inductive St2 where
  | toSendSt (pend : List Int)
  | toRecvSt (got : List (Int × Bool))
deriving DecidableEq, Repr

/-- Behaviour of the close-drain scenario task: send each pending value
on channel 0, close channel 0, then receive from it indefinitely. -/
def T2 : TaskSys St2 where
  next := fun s =>
    match s with
    | .toSendSt [] => .aClose 0
    | .toSendSt (v :: _) => .aSend 0 v
    | .toRecvSt _ => .aRecv 0
  after := fun s _ v ok =>
    match s with
    | .toSendSt [] => .toRecvSt []
    | .toSendSt (_ :: pend) => .toSendSt pend
    | .toRecvSt got => .toRecvSt (got ++ [(v, ok)])

/-- Sends below capacity complete without blocking and append to the
buffer in order. -/
theorem c2_fill (c : Nat) : ∀ (pend b : List Int), b.length + pend.length ≤ c →
    execSched T2 ⟨[⟨c, b, false, [], []⟩], [.run (.toSendSt pend)]⟩
      (List.replicate pend.length (0, 0)) =
    ⟨[⟨c, b ++ pend, false, [], []⟩], [.run (.toSendSt [])]⟩ := by
  intro pend
  induction pend with
  | nil => intro b _; simp [execSched]
  | cons v pend ih =>
    intro b h
    have h' : b.length + pend.length + 1 ≤ c := by
      simpa [Nat.add_assoc] using h
    have hlt : b.length < c := by omega
    have hstep :
        step T2 ⟨[⟨c, b, false, [], []⟩], [.run (.toSendSt (v :: pend))]⟩ 0 0 =
        some ⟨[⟨c, b ++ [v], false, [], []⟩], [.run (.toSendSt pend)]⟩ := by
      simp [step, T2, doSend, sendNow, hlt, Sys.setCh, Sys.setTask]
    rw [List.length_cons, List.replicate_succ]
    simp only [execSched, hstep, Option.getD_some]
    have h2 : (b ++ [v]).length + pend.length ≤ c := by
      have : (b ++ [v]).length = b.length + 1 := by simp
      omega
    rw [ih (b ++ [v]) h2, List.append_assoc]
    rfl

/-- Closing the channel after the sends sets the closed flag and moves
the task to its receive phase. -/
theorem c2_close (c : Nat) (b : List Int) :
    step T2 ⟨[⟨c, b, false, [], []⟩], [.run (.toSendSt [])]⟩ 0 0 =
      some ⟨[⟨c, b, true, [], []⟩], [.run (.toRecvSt [])]⟩ := by
  simp [step, T2, doClose, flushSenders, flushReceivers, Sys.setCh, Sys.setTask]

/-- Receives on a closed channel drain the remaining buffer in FIFO
order with ok=true. -/
theorem c2_drain (c : Nat) : ∀ (b : List Int) (got : List (Int × Bool)),
    execSched T2 ⟨[⟨c, b, true, [], []⟩], [.run (.toRecvSt got)]⟩
      (List.replicate b.length (0, 0)) =
    ⟨[⟨c, [], true, [], []⟩], [.run (.toRecvSt (got ++ b.map (fun v => (v, true))))]⟩ := by
  intro b
  induction b with
  | nil => intro got; simp [execSched]
  | cons v bs ih =>
    intro got
    have hstep :
        step T2 ⟨[⟨c, v :: bs, true, [], []⟩], [.run (.toRecvSt got)]⟩ 0 0 =
        some ⟨[⟨c, bs, true, [], []⟩], [.run (.toRecvSt (got ++ [(v, true)]))]⟩ := by
      simp [step, T2, doRecv, recvNow, Sys.setCh, Sys.setTask]
    rw [List.length_cons, List.replicate_succ]
    simp only [execSched, hstep, Option.getD_some]
    rw [ih (got ++ [(v, true)])]
    simp only [List.map_cons, List.append_assoc, List.singleton_append]

/-- Once the closed channel is drained, every further receive yields the
zero value with ok=false and leaves the system unchanged otherwise. -/
theorem c2_terminal (c : Nat) : ∀ (m : Nat) (got : List (Int × Bool)),
    execSched T2 ⟨[⟨c, [], true, [], []⟩], [.run (.toRecvSt got)]⟩
      (List.replicate m (0, 0)) =
    ⟨[⟨c, [], true, [], []⟩],
     [.run (.toRecvSt (got ++ List.replicate m ((0 : Int), false)))]⟩ := by
  intro m
  induction m with
  | zero => intro got; simp [execSched]
  | succ m ih =>
    intro got
    have hstep :
        step T2 ⟨[⟨c, [], true, [], []⟩], [.run (.toRecvSt got)]⟩ 0 0 =
        some ⟨[⟨c, [], true, [], []⟩], [.run (.toRecvSt (got ++ [(0, false)]))]⟩ := by
      simp [step, T2, doRecv, recvNow, Sys.setTask]
    rw [List.replicate_succ]
    simp only [execSched, hstep, Option.getD_some]
    rw [ih (got ++ [(0, false)])]
    simp only [List.replicate_succ, List.append_assoc, List.singleton_append]

/-- C2: after `close`, every value sent (and buffered) strictly before
the close is still receivable, in send order, with ok=true; once the
buffer is drained, each of `m` further receives on the closed channel
returns the zero value with ok=false, for every `m`, without raising an
error — the task keeps running and closed-and-drained is a stable
terminal state. -/
theorem close_drain_terminal (vs : List Int) (c m : Nat) (h : vs.length ≤ c) :
    execSched T2 ⟨[mkChan c], [.run (.toSendSt vs)]⟩
      (List.replicate vs.length (0, 0) ++ [(0, 0)] ++
        List.replicate vs.length (0, 0) ++ List.replicate m (0, 0)) =
    ⟨[⟨c, [], true, [], []⟩],
     [.run (.toRecvSt (vs.map (fun v => (v, true)) ++
        List.replicate m ((0 : Int), false)))]⟩ := by
  rw [execSched_append, execSched_append, execSched_append]
  have h0 : ([] : List Int).length + vs.length ≤ c := by simpa using h
  have hfill := c2_fill c vs [] h0
  simp only [List.nil_append] at hfill
  rw [show (⟨[mkChan c], [.run (.toSendSt vs)]⟩ : Sys St2) =
      ⟨[⟨c, [], false, [], []⟩], [.run (.toSendSt vs)]⟩ from rfl, hfill]
  have hclose := c2_close c vs
  simp only [execSched, hclose, Option.getD_some]
  have hdrain := c2_drain c vs []
  simp only [List.nil_append] at hdrain
  rw [hdrain, c2_terminal c m]

/-- C2 witness: values 3 and 4 on a capacity-2 channel (the fixture's
scenario), followed by three post-drain receives. -/
theorem close_drain_terminal_example :
    ([3, 4] : List Int).length ≤ 2 ∧
    execSched T2 ⟨[mkChan 2], [.run (.toSendSt [3, 4])]⟩
      (List.replicate 2 (0, 0) ++ [(0, 0)] ++
        List.replicate 2 (0, 0) ++ List.replicate 3 (0, 0)) =
    ⟨[⟨2, [], true, [], []⟩],
     [.run (.toRecvSt [(3, true), (4, true), (0, false), (0, false), (0, false)])]⟩ :=
  ⟨by decide, close_drain_terminal [3, 4] 2 3 (by decide)⟩

/-- Element lookup at the junction of an append. -/
theorem getElem?_append_mid {α : Type} (l : List α) (a : α) (r : List α) :
    (l ++ a :: r)[l.length]? = some a := by
  rw [List.getElem?_append_right (Nat.le_refl _)]; simp

/-- Replacement at the junction of an append. -/
theorem set_append_mid {α : Type} (l : List α) (a b : α) (r : List α) :
    (l ++ a :: r).set l.length b = l ++ b :: r := by
  rw [List.set_append]; simp

/-- Local state of the FIFO scenario tasks: a sender about to deliver one
value, a finished sender, or the receiver with its remaining count and
the values collected so far. -/
inductive St1 where
  | sOne (v : Int)
  | sFin
  | rGo (k : Nat) (acc : List Int)
deriving DecidableEq, Repr

/-- Behaviour of the FIFO scenario tasks: a sender sends its value on
channel 0 and finishes; the receiver receives on channel 0 until its
count is exhausted, collecting values in arrival order. -/
def T1 : TaskSys St1 where
  next := fun s =>
    match s with
    | .sOne v => .aSend 0 v
    | .sFin => .aDone
    | .rGo 0 _ => .aDone
    | .rGo (_ + 1) _ => .aRecv 0
  after := fun s _ v _ =>
    match s with
    | .sOne _ => .sFin
    | .sFin => .sFin
    | .rGo k acc => .rGo (k - 1) (acc ++ [v])

/-- Waking a plain blocked sender changes no channel and only the
status of the woken task, preserving the task-list shape. -/
theorem wakeSendWaiter_plain_shape {σ : Type} (T : TaskSys σ) (chs : List Chn)
    (ts : List (TStat σ)) (rstat : TStat σ) (t : TaskId) (v : Int)
    (ht : t < ts.length) :
    ∃ tsB : List (TStat σ), tsB.length = ts.length ∧
      wakeSendWaiter T ⟨chs, ts ++ [rstat]⟩ (.wSend t v) = ⟨chs, tsB ++ [rstat]⟩ := by
  unfold wakeSendWaiter
  have hget : (ts ++ [rstat])[t]? = ts[t]? := List.getElem?_append_left ht
  simp only [hget]
  cases hst : ts[t]? with
  | none => exact ⟨ts, rfl, rfl⟩
  | some st =>
    cases st with
    | bSend c0 v0 s0 =>
      refine ⟨ts.set t (.run (T.after s0 0 0 true)), by simp, ?_⟩
      simp [Sys.setTask, List.set_append, ht]
    | run s0 => exact ⟨ts, rfl, rfl⟩
    | bRecv c0 s0 => exact ⟨ts, rfl, rfl⟩
    | bSel cs s0 => exact ⟨ts, rfl, rfl⟩
    | done s0 => exact ⟨ts, rfl, rfl⟩
    | errored => exact ⟨ts, rfl, rfl⟩

/-- Filling phase of the FIFO scenario: each of the remaining senders,
scheduled once in index order with no receive yet performed, either
appends its value to the buffer (room available) or parks at the tail of
the send wait-queue.  The concatenation of buffer and queued values
grows by the sent values in sender order. -/
theorem c1_fill (c : Nat) (rst : TStat St1) :
    ∀ (suf : List Int) (ts0 : List (TStat St1)) (b : List Int) (wq : List Waiter),
    (b.length < c → wq = []) →
    (∀ w ∈ wq, ∃ t v, w = .wSend t v ∧ t < ts0.length) →
    ∃ (ts1 : List (TStat St1)) (b' : List Int) (wq' : List Waiter),
      execSched T1 ⟨[⟨c, b, false, wq, []⟩],
          ts0 ++ (suf.map fun v => TStat.run (St1.sOne v)) ++ [rst]⟩
        ((List.range' ts0.length suf.length).map fun i => (i, 0)) =
      ⟨[⟨c, b', false, wq', []⟩], ts0 ++ ts1 ++ [rst]⟩ ∧
      ts1.length = suf.length ∧
      b' ++ wq'.map Waiter.sval = b ++ wq.map Waiter.sval ++ suf ∧
      (∀ w ∈ wq', ∃ t v, w = .wSend t v ∧ t < ts0.length + suf.length) := by
  intro suf
  induction suf with
  | nil =>
    intro ts0 b wq _ hq
    refine ⟨[], b, wq, ?_, rfl, by simp, ?_⟩
    · simp [execSched]
    · intro w hw
      obtain ⟨t, v, hwv, hlt⟩ := hq w hw
      exact ⟨t, v, hwv, by simpa using hlt⟩
  | cons v suf ih =>
    intro ts0 b wq hbq hq
    have htasks : ts0 ++ ((v :: suf).map fun u => TStat.run (St1.sOne u)) ++ [rst] =
        ts0 ++ TStat.run (St1.sOne v) :: ((suf.map fun u => TStat.run (St1.sOne u)) ++ [rst]) := by
      simp
    have hsched : ((List.range' ts0.length (v :: suf).length).map fun i => (i, (0:Nat))) =
        (ts0.length, (0:Nat)) :: ((List.range' (ts0.length + 1) suf.length).map fun i => (i, 0)) := by
      simp [List.range'_succ]
    rw [htasks, hsched]
    by_cases hb : b.length < c
    · -- room in the buffer: the value is appended
      have hwq : wq = [] := hbq hb
      subst hwq
      have hstep :
          step T1 ⟨[⟨c, b, false, [], []⟩],
              ts0 ++ TStat.run (St1.sOne v) :: ((suf.map fun u => TStat.run (St1.sOne u)) ++ [rst])⟩
            ts0.length 0 =
          some ⟨[⟨c, b ++ [v], false, [], []⟩],
              (ts0 ++ [TStat.run St1.sFin]) ++ ((suf.map fun u => TStat.run (St1.sOne u)) ++ [rst])⟩ := by
        simp only [step, getElem?_append_mid, T1, doSend, sendNow]
        simp only [List.getElem?_cons_zero, if_neg (Bool.false_ne_true), hb, if_pos, if_true]
        simp [Sys.setCh, Sys.setTask, set_append_mid, hb]
      simp only [execSched, hstep, Option.getD_some]
      have hb2 : ∀ w ∈ ([] : List Waiter), ∃ t u, w = Waiter.wSend t u ∧ t < (ts0 ++ [TStat.run St1.sFin]).length := by
        simp
      obtain ⟨ts1, b', wq', hexec, hlen, hstream, hq'⟩ :=
        ih (ts0 ++ [TStat.run St1.sFin]) (b ++ [v]) [] (fun _ => rfl) hb2
      have hlen0 : (ts0 ++ [TStat.run St1.sFin]).length = ts0.length + 1 := by simp
      rw [List.append_assoc, hlen0] at hexec
      refine ⟨TStat.run St1.sFin :: ts1, b', wq', ?_, by simp [hlen], ?_, ?_⟩
      · rw [hexec]
        simp
      · rw [hstream]; simp [Waiter.sval]
      · intro w hw
        obtain ⟨t, u, hwv, hlt⟩ := hq' w hw
        refine ⟨t, u, hwv, ?_⟩
        simp only [List.length_append, List.length_cons, List.length_nil,
          List.length_map] at hlt ⊢
        exact Nat.lt_of_lt_of_le hlt (by omega)
    · -- buffer full (or unbuffered): the sender parks in the wait-queue
      have hstep :
          step T1 ⟨[⟨c, b, false, wq, []⟩],
              ts0 ++ TStat.run (St1.sOne v) :: ((suf.map fun u => TStat.run (St1.sOne u)) ++ [rst])⟩
            ts0.length 0 =
          some ⟨[⟨c, b, false, wq ++ [.wSend ts0.length v], []⟩],
              (ts0 ++ [TStat.bSend 0 v (St1.sOne v)]) ++ ((suf.map fun u => TStat.run (St1.sOne u)) ++ [rst])⟩ := by
        simp only [step, getElem?_append_mid, T1, doSend, sendNow]
        simp only [List.getElem?_cons_zero, hb]
        simp [Sys.setCh, Sys.setTask, set_append_mid, hb]
      simp only [execSched, hstep, Option.getD_some]
      have hq2 : ∀ w ∈ wq ++ [Waiter.wSend ts0.length v],
          ∃ t u, w = Waiter.wSend t u ∧ t < (ts0 ++ [TStat.bSend 0 v (St1.sOne v)]).length := by
        intro w hw
        rcases List.mem_append.1 hw with hw | hw
        · obtain ⟨t, u, hwv, hlt⟩ := hq w hw
          refine ⟨t, u, hwv, ?_⟩
          simp only [List.length_append, List.length_cons, List.length_nil]
          exact Nat.lt_of_lt_of_le hlt (by omega)
        · simp at hw
          exact ⟨ts0.length, v, hw, by simp⟩
      obtain ⟨ts1, b', wq', hexec, hlen, hstream, hq'⟩ :=
        ih (ts0 ++ [TStat.bSend 0 v (St1.sOne v)]) b (wq ++ [.wSend ts0.length v])
          (fun h => absurd h hb) hq2
      have hlen0 : (ts0 ++ [TStat.bSend 0 v (St1.sOne v)]).length = ts0.length + 1 := by simp
      rw [List.append_assoc, hlen0] at hexec
      refine ⟨TStat.bSend 0 v (St1.sOne v) :: ts1, b', wq', ?_, by simp [hlen], ?_, ?_⟩
      · rw [hexec]
        simp
      · rw [hstream]; simp [Waiter.sval]
      · intro w hw
        obtain ⟨t, u, hwv, hlt⟩ := hq' w hw
        refine ⟨t, u, hwv, ?_⟩
        simp only [List.length_append, List.length_cons, List.length_nil,
          List.length_map] at hlt ⊢
        exact Nat.lt_of_lt_of_le hlt (by omega)

/-- Reduction of the receiver's next act. -/
theorem T1_next_rGo_succ (k : Nat) (acc : List Int) :
    T1.next (.rGo (k + 1) acc) = .aRecv 0 := rfl

/-- Reduction of the receiver's state advance. -/
theorem T1_after_rGo (k : Nat) (acc : List Int) (i : Nat) (v : Int) (ok : Bool) :
    T1.after (.rGo k acc) i v ok = .rGo (k - 1) (acc ++ [v]) := rfl

/-- Draining phase of the FIFO scenario: with values in the buffer and
plain blocked senders queued behind it, the receiver collects, one
receive at a time, first the buffered values and then the queued
senders' values, in exactly that order. -/
theorem c1_drain (c : Nat) :
    ∀ (n : Nat) (b : List Int) (wq : List Waiter) (ts : List (TStat St1))
      (k0 : Nat) (acc : List Int),
    n = b.length + wq.length →
    (∀ w ∈ wq, ∃ t v, w = .wSend t v ∧ t < ts.length) →
    ∃ ts' : List (TStat St1), ts'.length = ts.length ∧
      execSched T1 ⟨[⟨c, b, false, wq, []⟩], ts ++ [.run (.rGo (n + k0) acc)]⟩
        (List.replicate n (ts.length, 0)) =
      ⟨[⟨c, [], false, [], []⟩],
       ts' ++ [.run (.rGo k0 (acc ++ b ++ wq.map Waiter.sval))]⟩ := by
  intro n
  induction n with
  | zero =>
    intro b wq ts k0 acc hn _
    have hb : b = [] := List.eq_nil_of_length_eq_zero (by omega)
    have hw : wq = [] := List.eq_nil_of_length_eq_zero (by omega)
    subst hb; subst hw
    exact ⟨ts, rfl, by simp [execSched]⟩
  | succ n ih =>
    intro b wq ts k0 acc hn hq
    have hk : n + 1 + k0 = (n + k0) + 1 := by omega
    rw [hk]
    match b, wq with
    | v :: bs, [] =>
      have hstep :
          step T1 ⟨[⟨c, v :: bs, false, [], []⟩],
              ts ++ [.run (.rGo ((n + k0) + 1) acc)]⟩ ts.length 0 =
          some ⟨[⟨c, bs, false, [], []⟩],
              ts ++ [.run (.rGo (n + k0) (acc ++ [v]))]⟩ := by
        simp [step, List.getElem?_concat_length, T1, doRecv, recvNow,
          Sys.setCh, Sys.setTask, set_append_mid]
      rw [List.replicate_succ]
      simp only [execSched, hstep, Option.getD_some]
      have hn2 : n = bs.length + ([] : List Waiter).length := by
        simp at hn ⊢; omega
      obtain ⟨ts', hlen, hexec⟩ := ih bs [] ts k0 (acc ++ [v]) hn2 (by simp)
      refine ⟨ts', hlen, ?_⟩
      rw [hexec]
      simp
    | v :: bs, w :: wq' =>
      obtain ⟨tw, vw, hw, hlt⟩ := hq w (by simp)
      subst hw
      obtain ⟨tsB, htsB, hwake⟩ := wakeSendWaiter_plain_shape T1
        [⟨c, bs ++ [vw], false, wq', []⟩] ts
        (.run (.rGo ((n + k0) + 1) acc)) tw vw hlt
      have hstep :
          step T1 ⟨[⟨c, v :: bs, false, .wSend tw vw :: wq', []⟩],
              ts ++ [.run (.rGo ((n + k0) + 1) acc)]⟩ ts.length 0 =
          some ⟨[⟨c, bs ++ [vw], false, wq', []⟩],
              tsB ++ [.run (.rGo (n + k0) (acc ++ [v]))]⟩ := by
        simp only [step, List.getElem?_concat_length, T1_next_rGo_succ, doRecv, recvNow,
          List.getElem?_cons_zero, Sys.setCh, List.set_cons_zero, Waiter.sval]
        rw [hwake]
        simp only [Sys.setTask, T1_after_rGo, Nat.succ_sub_one]
        rw [← htsB]
        simp [set_append_mid]
      rw [List.replicate_succ]
      simp only [execSched, hstep, Option.getD_some]
      have hn2 : n = (bs ++ [vw]).length + wq'.length := by
        simp at hn ⊢; omega
      have hq2 : ∀ u ∈ wq', ∃ t x, u = Waiter.wSend t x ∧ t < tsB.length := by
        intro u hu
        obtain ⟨t, x, hux, hlt2⟩ := hq u (by simp [hu])
        exact ⟨t, x, hux, htsB ▸ hlt2⟩
      obtain ⟨ts', hlen, hexec⟩ := ih (bs ++ [vw]) wq' tsB k0 (acc ++ [v]) hn2 hq2
      rw [← htsB]
      refine ⟨ts', by rw [hlen, htsB], ?_⟩
      rw [hexec]
      simp [Waiter.sval]
    | [], w :: wq' =>
      obtain ⟨tw, vw, hw, hlt⟩ := hq w (by simp)
      subst hw
      obtain ⟨tsB, htsB, hwake⟩ := wakeSendWaiter_plain_shape T1
        [⟨c, [], false, wq', []⟩] ts
        (.run (.rGo ((n + k0) + 1) acc)) tw vw hlt
      have hstep :
          step T1 ⟨[⟨c, [], false, .wSend tw vw :: wq', []⟩],
              ts ++ [.run (.rGo ((n + k0) + 1) acc)]⟩ ts.length 0 =
          some ⟨[⟨c, [], false, wq', []⟩],
              tsB ++ [.run (.rGo (n + k0) (acc ++ [vw]))]⟩ := by
        simp only [step, List.getElem?_concat_length, T1_next_rGo_succ, doRecv, recvNow,
          List.getElem?_cons_zero, Sys.setCh, List.set_cons_zero, Waiter.sval]
        rw [hwake]
        simp only [Sys.setTask, T1_after_rGo, Nat.succ_sub_one]
        rw [← htsB]
        simp [set_append_mid]
      rw [List.replicate_succ]
      simp only [execSched, hstep, Option.getD_some]
      have hn2 : n = ([] : List Int).length + wq'.length := by
        simp at hn ⊢; omega
      have hq2 : ∀ u ∈ wq', ∃ t x, u = Waiter.wSend t x ∧ t < tsB.length := by
        intro u hu
        obtain ⟨t, x, hux, hlt2⟩ := hq u (by simp [hu])
        exact ⟨t, x, hux, htsB ▸ hlt2⟩
      obtain ⟨ts', hlen, hexec⟩ := ih [] wq' tsB k0 (acc ++ [vw]) hn2 hq2
      rw [← htsB]
      refine ⟨ts', by rw [hlen, htsB], ?_⟩
      rw [hexec]
      simp [Waiter.sval]
    | [], [] => simp at hn

/-- C1: for every channel capacity (0 = unbuffered, or buffered) and
every list `vs` of values, when the `vs.length` senders are all invoked
(in order) before any receive occurs — each either buffering its value
or parking FIFO in the send wait-queue — performing `vs.length` receives
yields exactly `vs` in the original send order; in particular the
longest-waiting blocked sender's value is always the next one the
receiver observes. -/
theorem fifo_send_order (vs : List Int) (c : Nat) :
    ∃ ts' : List (TStat St1), ts'.length = vs.length ∧
      execSched T1
        ⟨[mkChan c],
         (vs.map fun v => TStat.run (St1.sOne v)) ++ [.run (.rGo vs.length [])]⟩
        (((List.range' 0 vs.length).map fun i => (i, 0)) ++
          List.replicate vs.length (vs.length, 0)) =
      ⟨[⟨c, [], false, [], []⟩], ts' ++ [.run (.rGo 0 vs)]⟩ := by
  obtain ⟨ts1, b', wq', hexec, hlen, hstream, hq⟩ :=
    c1_fill c (.run (.rGo vs.length [])) vs [] [] [] (fun _ => rfl) (by simp)
  simp only [List.nil_append, List.map_nil, List.length_nil, Nat.zero_add]
    at hexec hstream hq
  have hn : vs.length = b'.length + wq'.length := by
    have := congrArg List.length hstream
    simp only [List.length_append, List.length_map] at this
    omega
  have hq2 : ∀ w ∈ wq', ∃ t v, w = Waiter.wSend t v ∧ t < ts1.length := by
    intro w hw
    obtain ⟨t, v, hwv, hlt⟩ := hq w hw
    refine ⟨t, v, hwv, ?_⟩
    rw [hlen]
    exact hlt
  obtain ⟨ts'', hlen2, hexec2⟩ := c1_drain c vs.length b' wq' ts1 0 [] hn hq2
  rw [execSched_append]
  rw [show (⟨[mkChan c],
      (vs.map fun v => TStat.run (St1.sOne v)) ++ [TStat.run (.rGo vs.length [])]⟩ : Sys St1) =
      ⟨[⟨c, [], false, [], []⟩],
      (vs.map fun v => TStat.run (St1.sOne v)) ++ [TStat.run (.rGo vs.length [])]⟩ from rfl]
  rw [hexec]
  rw [hlen] at hexec2
  simp only [Nat.add_zero, List.nil_append] at hexec2
  rw [hexec2, hstream]
  exact ⟨ts'', by rw [hlen2, hlen], rfl⟩

/-- Absence of select registrations of task `t` anywhere in the system's
wait-queues. -/
def noSelOf {σ : Type} (sys : Sys σ) (t : TaskId) : Prop :=
  ∀ ch ∈ sys.chans, (∀ w ∈ ch.sendq, w.isSelOf t = false) ∧
    (∀ w ∈ ch.recvq, w.isSelOf t = false)

/-- Teardown is the identity when the task holds no registration. -/
theorem teardown_eq_self {σ : Type} (sys : Sys σ) (t : TaskId)
    (h : noSelOf sys t) : teardown sys t = sys := by
  unfold teardown
  obtain ⟨chans, tasks⟩ := sys
  simp only [Sys.mk.injEq, and_true]
  have : ∀ l : List Chn,
      (∀ ch ∈ l, (∀ w ∈ ch.sendq, w.isSelOf t = false) ∧
        (∀ w ∈ ch.recvq, w.isSelOf t = false)) →
      (l.map fun ch =>
        { ch with sendq := ch.sendq.filter (fun w => !w.isSelOf t),
                  recvq := ch.recvq.filter (fun w => !w.isSelOf t) }) = l := by
    intro l hl
    induction l with
    | nil => rfl
    | cons ch l ihl =>
      have hch := hl ch (by simp)
      have h1 : ch.sendq.filter (fun w => !w.isSelOf t) = ch.sendq :=
        List.filter_eq_self.2 (fun w hw => by simp [hch.1 w hw])
      have h2 : ch.recvq.filter (fun w => !w.isSelOf t) = ch.recvq :=
        List.filter_eq_self.2 (fun w hw => by simp [hch.2 w hw])
      simp only [List.map_cons, h1, h2]
      rw [ihl (fun ch2 h2 => hl ch2 (by simp [h2]))]
  exact this chans (h · ·)

/-- Readiness of a send case coincides with the non-blocking send
completing. -/
theorem sendNow_isSome_iff {σ : Type} (T : TaskSys σ) (sys : Sys σ)
    (t : TaskId) (s : σ) (c : ChanId) (v : Int) (i : Nat) :
    (sendNow T sys t s c v i).isSome = caseReady sys ⟨c, .dsend, v⟩ := by
  unfold sendNow caseReady
  cases h : sys.chans[c]? with
  | none => rfl
  | some ch =>
    obtain ⟨cap, buf, closed, sendq, recvq⟩ := ch
    cases closed with
    | true => simp
    | false =>
      by_cases hb : buf.length < cap
      · cases recvq <;> simp [hb]
      · cases recvq <;> simp [hb]

/-- Readiness of a receive case coincides with the non-blocking receive
completing. -/
theorem recvNow_isSome_iff {σ : Type} (T : TaskSys σ) (sys : Sys σ)
    (t : TaskId) (s : σ) (c : ChanId) (i : Nat) :
    (recvNow T sys t s c i).isSome = caseReady sys ⟨c, .drecv, 0⟩ := by
  unfold recvNow caseReady
  cases h : sys.chans[c]? with
  | none => rfl
  | some ch =>
    obtain ⟨cap, buf, closed, sendq, recvq⟩ := ch
    cases buf with
    | cons v bs => cases sendq <;> simp
    | nil =>
      cases sendq with
      | cons w sq => simp
      | nil => cases closed <;> simp

/-- C9: a Select containing exactly one case and no default is
observably equivalent to the plain channel operation of that case.  When
the case is immediately ready, the single-case select is literally the
plain operation.  When it is not ready (a fresh unbuffered channel),
both paths park the task, and the next matching operation by a peer
produces identical systems: a single-send-case select blocks until a
receiver arrives and delivers the same value a plain send would, and a
single-receive-case select blocks until a sender arrives and receives
the same value a plain receive would. -/
theorem select_singleton_refines_plain {σ : Type} (T : TaskSys σ) (sys : Sys σ)
    (t t' : TaskId) (s s2 : σ) (c : ChanId) (v v' : Int) (choice : Nat)
    (hclean : noSelOf sys t) (ht : t < sys.tasks.length) :
    (caseReady sys ⟨c, .dsend, v⟩ = true →
      doSelect T sys t s [⟨c, .dsend, v⟩] false choice = doSend T sys t s c v) ∧
    (caseReady sys ⟨c, .drecv, 0⟩ = true →
      doSelect T sys t s [⟨c, .drecv, 0⟩] false choice = doRecv T sys t s c) ∧
    (sys.chans[c]? = some (mkChan 0) →
      doRecv T (doSelect T sys t s [⟨c, .dsend, v⟩] false choice) t' s2 c =
        doRecv T (doSend T sys t s c v) t' s2 c) ∧
    (sys.chans[c]? = some (mkChan 0) →
      doSend T (doSelect T sys t s [⟨c, .drecv, 0⟩] false choice) t' s2 c v' =
        doSend T (doRecv T sys t s c) t' s2 c v') := by
  refine ⟨?_, ?_, ?_, ?_⟩
  · intro hready
    have h := sendNow_isSome_iff T sys t s c v 0
    rw [hready] at h
    obtain ⟨x, hx⟩ := Option.isSome_iff_exists.1 h
    unfold doSelect doSend
    simp [List.range_succ, List.filter_cons, List.filter_nil, hready, Nat.mod_one,
      fireCase, hx]
  · intro hready
    have h := recvNow_isSome_iff T sys t s c 0
    rw [hready] at h
    obtain ⟨x, hx⟩ := Option.isSome_iff_exists.1 h
    unfold doSelect doRecv
    simp [List.range_succ, List.filter_cons, List.filter_nil, hready, Nat.mod_one,
      fireCase, hx]
  · intro hc
    have hclt : c < sys.chans.length := (List.getElem?_eq_some.1 hc).1
    have hsel : doSelect T sys t s [⟨c, .dsend, v⟩] false choice =
        ⟨sys.chans.set c ⟨0, [], false, [.wSelSend t 0 v], []⟩,
         sys.tasks.set t (.bSel [⟨c, .dsend, v⟩] s)⟩ := by
      simp [doSelect, caseReady, hc, mkChan, registerCases, Sys.setCh, Sys.setTask,
        List.range_succ, List.filter_cons, List.filter_nil]
    have hplain : doSend T sys t s c v =
        ⟨sys.chans.set c ⟨0, [], false, [.wSend t v], []⟩,
         sys.tasks.set t (.bSend c v s)⟩ := by
      simp [doSend, sendNow, hc, mkChan, Sys.setCh, Sys.setTask]
    rw [hsel, hplain]
    have htear : teardown (⟨sys.chans.set c ⟨0, [], false, [], []⟩,
          sys.tasks.set t (.bSel [⟨c, .dsend, v⟩] s)⟩ : Sys σ) t =
        ⟨sys.chans.set c ⟨0, [], false, [], []⟩,
         sys.tasks.set t (.bSel [⟨c, .dsend, v⟩] s)⟩ := by
      apply teardown_eq_self
      intro ch hch
      rcases List.mem_or_eq_of_mem_set hch with hch2 | rfl
      · exact hclean ch hch2
      · exact ⟨by simp, by simp⟩
    simp only [doRecv, recvNow, List.getElem?_set_self hclt]
    simp only [wakeSendWaiter, Sys.setCh, Sys.setTask, List.set_set,
      List.getElem?_set_self ht]
    rw [htear]
    simp [Sys.setTask, Sys.setCh, Waiter.sval, List.set_set]
  · intro hc
    have hclt : c < sys.chans.length := (List.getElem?_eq_some.1 hc).1
    have hsel : doSelect T sys t s [⟨c, .drecv, 0⟩] false choice =
        ⟨sys.chans.set c ⟨0, [], false, [], [.wSelRecv t 0]⟩,
         sys.tasks.set t (.bSel [⟨c, .drecv, 0⟩] s)⟩ := by
      simp [doSelect, caseReady, hc, mkChan, registerCases, Sys.setCh, Sys.setTask,
        List.range_succ, List.filter_cons, List.filter_nil]
    have hplain : doRecv T sys t s c =
        ⟨sys.chans.set c ⟨0, [], false, [], [.wRecv t]⟩,
         sys.tasks.set t (.bRecv c s)⟩ := by
      simp [doRecv, recvNow, hc, mkChan, Sys.setCh, Sys.setTask]
    rw [hsel, hplain]
    have htear : teardown (⟨sys.chans.set c ⟨0, [], false, [], []⟩,
          sys.tasks.set t (.bSel [⟨c, .drecv, 0⟩] s)⟩ : Sys σ) t =
        ⟨sys.chans.set c ⟨0, [], false, [], []⟩,
         sys.tasks.set t (.bSel [⟨c, .drecv, 0⟩] s)⟩ := by
      apply teardown_eq_self
      intro ch hch
      rcases List.mem_or_eq_of_mem_set hch with hch2 | rfl
      · exact hclean ch hch2
      · exact ⟨by simp, by simp⟩
    simp only [doSend, sendNow, List.getElem?_set_self hclt]
    simp only [wakeRecvWaiter, Sys.setCh, Sys.setTask, List.set_set,
      List.getElem?_set_self ht]
    rw [htear]
    simp [Sys.setTask, Sys.setCh, List.set_set]

/-- C9 witness: the single-send-case select and the plain send of 5 on a
fresh unbuffered channel lead to identical systems once the receiver
task arrives. -/
theorem select_singleton_refines_plain_example :
    noSelOf (⟨[mkChan 0], [.run (0, 0, []), .run (1, 0, [])]⟩ : Sys ScriptSt) 0 ∧
    doRecv (scripted fun _ _ => .aDone)
        (doSelect (scripted fun _ _ => .aDone)
          ⟨[mkChan 0], [.run (0, 0, []), .run (1, 0, [])]⟩ 0 (0, 0, [])
          [⟨0, .dsend, 5⟩] false 0) 1 (1, 0, []) 0 =
      doRecv (scripted fun _ _ => .aDone)
        (doSend (scripted fun _ _ => .aDone)
          ⟨[mkChan 0], [.run (0, 0, []), .run (1, 0, [])]⟩ 0 (0, 0, []) 0 5)
        1 (1, 0, []) 0 := by
  have hclean : noSelOf (⟨[mkChan 0], [.run (0, 0, []), .run (1, 0, [])]⟩ : Sys ScriptSt) 0 := by
    intro ch hch
    simp only [List.mem_singleton] at hch
    subst hch
    exact ⟨by simp [mkChan], by simp [mkChan]⟩
  exact ⟨hclean,
    (select_singleton_refines_plain (scripted fun _ _ => .aDone)
      ⟨[mkChan 0], [.run (0, 0, []), .run (1, 0, [])]⟩ 0 1 (0, 0, []) (1, 0, [])
      0 5 7 0 hclean (by simp)).2.2.1 rfl⟩

/-- Structure of a receiver-side wake: the woken system is the original,
or the original with one task status replaced, or the torn-down original
with one task status replaced; channels are touched only by teardown. -/
theorem wakeRecvWaiter_cases {σ : Type} (T : TaskSys σ) (sys : Sys σ)
    (w : Waiter) (v : Int) (ok : Bool) :
    wakeRecvWaiter T sys w v ok = sys ∨
    (∃ c0 s0 st, sys.tasks[w.tid]? = some (.bRecv c0 s0) ∧
      wakeRecvWaiter T sys w v ok = sys.setTask w.tid st) ∨
    (∃ cs0 s0 st, sys.tasks[w.tid]? = some (.bSel cs0 s0) ∧
      wakeRecvWaiter T sys w v ok = (teardown sys w.tid).setTask w.tid st) := by
  cases w with
  | wRecv t =>
    cases h : sys.tasks[t]? with
    | none => exact Or.inl (by simp [wakeRecvWaiter, h])
    | some st =>
      cases st with
      | bRecv c0 s0 =>
        exact Or.inr (Or.inl ⟨c0, s0, .run (T.after s0 0 v ok),
          by simpa [Waiter.tid] using h, by simp [wakeRecvWaiter, h, Waiter.tid]⟩)
      | run s0 => exact Or.inl (by simp [wakeRecvWaiter, h])
      | bSend c0 v0 s0 => exact Or.inl (by simp [wakeRecvWaiter, h])
      | bSel cs s0 => exact Or.inl (by simp [wakeRecvWaiter, h])
      | done s0 => exact Or.inl (by simp [wakeRecvWaiter, h])
      | errored => exact Or.inl (by simp [wakeRecvWaiter, h])
  | wSelRecv t i =>
    cases h : sys.tasks[t]? with
    | none => exact Or.inl (by simp [wakeRecvWaiter, h])
    | some st =>
      cases st with
      | bSel cs s0 =>
        exact Or.inr (Or.inr ⟨cs, s0, .run (T.after s0 i v ok),
          by simpa [Waiter.tid] using h, by simp [wakeRecvWaiter, h, Waiter.tid]⟩)
      | run s0 => exact Or.inl (by simp [wakeRecvWaiter, h])
      | bSend c0 v0 s0 => exact Or.inl (by simp [wakeRecvWaiter, h])
      | bRecv c0 s0 => exact Or.inl (by simp [wakeRecvWaiter, h])
      | done s0 => exact Or.inl (by simp [wakeRecvWaiter, h])
      | errored => exact Or.inl (by simp [wakeRecvWaiter, h])
  | wSend t v0 => exact Or.inl (by simp [wakeRecvWaiter])
  | wSelSend t i v0 => exact Or.inl (by simp [wakeRecvWaiter])

/-- Structure of a sender-side wake, as for the receiver side. -/
theorem wakeSendWaiter_cases {σ : Type} (T : TaskSys σ) (sys : Sys σ)
    (w : Waiter) :
    wakeSendWaiter T sys w = sys ∨
    (∃ c0 v0 s0 st, sys.tasks[w.tid]? = some (.bSend c0 v0 s0) ∧
      wakeSendWaiter T sys w = sys.setTask w.tid st) ∨
    (∃ cs0 s0 st, sys.tasks[w.tid]? = some (.bSel cs0 s0) ∧
      wakeSendWaiter T sys w = (teardown sys w.tid).setTask w.tid st) := by
  cases w with
  | wSend t v0 =>
    cases h : sys.tasks[t]? with
    | none => exact Or.inl (by simp [wakeSendWaiter, h])
    | some st =>
      cases st with
      | bSend c0 vv s0 =>
        exact Or.inr (Or.inl ⟨c0, vv, s0, .run (T.after s0 0 0 true),
          by simpa [Waiter.tid] using h, by simp [wakeSendWaiter, h, Waiter.tid]⟩)
      | run s0 => exact Or.inl (by simp [wakeSendWaiter, h])
      | bRecv c0 s0 => exact Or.inl (by simp [wakeSendWaiter, h])
      | bSel cs s0 => exact Or.inl (by simp [wakeSendWaiter, h])
      | done s0 => exact Or.inl (by simp [wakeSendWaiter, h])
      | errored => exact Or.inl (by simp [wakeSendWaiter, h])
  | wSelSend t i v0 =>
    cases h : sys.tasks[t]? with
    | none => exact Or.inl (by simp [wakeSendWaiter, h])
    | some st =>
      cases st with
      | bSel cs s0 =>
        exact Or.inr (Or.inr ⟨cs, s0, .run (T.after s0 i 0 true),
          by simpa [Waiter.tid] using h, by simp [wakeSendWaiter, h, Waiter.tid]⟩)
      | run s0 => exact Or.inl (by simp [wakeSendWaiter, h])
      | bSend c0 vv s0 => exact Or.inl (by simp [wakeSendWaiter, h])
      | bRecv c0 s0 => exact Or.inl (by simp [wakeSendWaiter, h])
      | done s0 => exact Or.inl (by simp [wakeSendWaiter, h])
      | errored => exact Or.inl (by simp [wakeSendWaiter, h])
  | wRecv t => exact Or.inl (by simp [wakeSendWaiter])
  | wSelRecv t i => exact Or.inl (by simp [wakeSendWaiter])

/-- Structure of a failed sender wake on close, as above. -/
theorem failSendWaiter_cases {σ : Type} (sys : Sys σ) (w : Waiter) :
    failSendWaiter sys w = sys ∨
    (∃ c0 v0 s0 st, sys.tasks[w.tid]? = some (.bSend c0 v0 s0) ∧
      failSendWaiter sys w = sys.setTask w.tid st) ∨
    (∃ cs0 s0 st, sys.tasks[w.tid]? = some (.bSel cs0 s0) ∧
      failSendWaiter sys w = (teardown sys w.tid).setTask w.tid st) := by
  cases w with
  | wSend t v0 =>
    cases h : sys.tasks[t]? with
    | none => exact Or.inl (by simp [failSendWaiter, h])
    | some st =>
      cases st with
      | bSend c0 vv s0 =>
        exact Or.inr (Or.inl ⟨c0, vv, s0, .errored,
          by simpa [Waiter.tid] using h, by simp [failSendWaiter, h, Waiter.tid]⟩)
      | run s0 => exact Or.inl (by simp [failSendWaiter, h])
      | bRecv c0 s0 => exact Or.inl (by simp [failSendWaiter, h])
      | bSel cs s0 => exact Or.inl (by simp [failSendWaiter, h])
      | done s0 => exact Or.inl (by simp [failSendWaiter, h])
      | errored => exact Or.inl (by simp [failSendWaiter, h])
  | wSelSend t i v0 =>
    cases h : sys.tasks[t]? with
    | none => exact Or.inl (by simp [failSendWaiter, h])
    | some st =>
      cases st with
      | bSel cs s0 =>
        exact Or.inr (Or.inr ⟨cs, s0, .errored,
          by simpa [Waiter.tid] using h, by simp [failSendWaiter, h, Waiter.tid]⟩)
      | run s0 => exact Or.inl (by simp [failSendWaiter, h])
      | bSend c0 vv s0 => exact Or.inl (by simp [failSendWaiter, h])
      | bRecv c0 s0 => exact Or.inl (by simp [failSendWaiter, h])
      | done s0 => exact Or.inl (by simp [failSendWaiter, h])
      | errored => exact Or.inl (by simp [failSendWaiter, h])
  | wRecv t => exact Or.inl (by simp [failSendWaiter])
  | wSelRecv t i => exact Or.inl (by simp [failSendWaiter])

/-- Modelled from the spec: the rendezvous invariant of section 4.2 — an
unbuffered (capacity-0) channel never holds a value in its buffer. -/
def noFlight {σ : Type} (sys : Sys σ) : Prop :=
  ∀ ch ∈ sys.chans, ch.cap = 0 → ch.buf = []

/-- Teardown preserves the rendezvous invariant. -/
theorem noFlight_teardown {σ : Type} (sys : Sys σ) (t : TaskId)
    (h : noFlight sys) : noFlight (teardown sys t) := by
  intro ch hch
  simp only [teardown, List.mem_map] at hch
  obtain ⟨ch0, hch0, rfl⟩ := hch
  exact h ch0 hch0

/-- Replacing a channel that satisfies the rendezvous condition
preserves the invariant. -/
theorem noFlight_setCh {σ : Type} (sys : Sys σ) (c : ChanId) (ch : Chn)
    (h : noFlight sys) (hch : ch.cap = 0 → ch.buf = []) :
    noFlight (sys.setCh c ch) := by
  intro ch2 hch2
  rcases List.mem_or_eq_of_mem_set hch2 with hm | rfl
  · exact h ch2 hm
  · exact hch

/-- Replacing a task status preserves the rendezvous invariant. -/
theorem noFlight_setTask {σ : Type} (sys : Sys σ) (t : TaskId) (st : TStat σ)
    (h : noFlight sys) : noFlight (sys.setTask t st) := h

/-- Receiver-side wakes preserve the rendezvous invariant. -/
theorem noFlight_wakeRecvWaiter {σ : Type} (T : TaskSys σ) (sys : Sys σ)
    (w : Waiter) (v : Int) (ok : Bool) (h : noFlight sys) :
    noFlight (wakeRecvWaiter T sys w v ok) := by
  rcases wakeRecvWaiter_cases T sys w v ok with he
    | ⟨c0, s0, st, hst, he⟩ | ⟨cs0, s0, st, hst, he⟩ <;> rw [he]
  · exact h
  · exact noFlight_setTask _ _ _ h
  · exact noFlight_setTask _ _ _ (noFlight_teardown _ _ h)

/-- Sender-side wakes preserve the rendezvous invariant. -/
theorem noFlight_wakeSendWaiter {σ : Type} (T : TaskSys σ) (sys : Sys σ)
    (w : Waiter) (h : noFlight sys) : noFlight (wakeSendWaiter T sys w) := by
  rcases wakeSendWaiter_cases T sys w with he
    | ⟨c0, v0, s0, st, hst, he⟩ | ⟨cs0, s0, st, hst, he⟩ <;> rw [he]
  · exact h
  · exact noFlight_setTask _ _ _ h
  · exact noFlight_setTask _ _ _ (noFlight_teardown _ _ h)

/-- Failing wakes on close preserve the rendezvous invariant. -/
theorem noFlight_failSendWaiter {σ : Type} (sys : Sys σ) (w : Waiter)
    (h : noFlight sys) : noFlight (failSendWaiter sys w) := by
  rcases failSendWaiter_cases sys w with he
    | ⟨c0, v0, s0, st, hst, he⟩ | ⟨cs0, s0, st, hst, he⟩ <;> rw [he]
  · exact h
  · exact noFlight_setTask _ _ _ h
  · exact noFlight_setTask _ _ _ (noFlight_teardown _ _ h)

/-- A non-blocking send preserves the rendezvous invariant. -/
theorem noFlight_sendNow {σ : Type} (T : TaskSys σ) (sys : Sys σ)
    (t : TaskId) (s : σ) (c : ChanId) (v : Int) (i : Nat) (sys' : Sys σ)
    (h : sendNow T sys t s c v i = some sys') (hn : noFlight sys) :
    noFlight sys' := by
  unfold sendNow at h
  split at h
  · exact absurd h (by simp)
  next ch hch =>
    have hmem : ch ∈ sys.chans := List.getElem?_mem hch
    split at h
    · injection h with h2
      rw [← h2]
      exact noFlight_setTask _ _ _ hn
    next hcl =>
      split at h
      next hb =>
        split at h
        · injection h with h2
          rw [← h2]
          exact noFlight_setTask _ _ _
            (noFlight_setCh _ _ _ hn (fun hc0 => absurd hb (by simp only [] at hc0; omega)))
        next w rq hrq =>
          injection h with h2
          rw [← h2]
          exact noFlight_setTask _ _ _ (noFlight_wakeRecvWaiter _ _ _ _ _
            (noFlight_setCh _ _ _ hn (fun hc0 => absurd hb (by simp only [] at hc0; omega))))
      next hb =>
        split at h
        next w rq hrq =>
          injection h with h2
          rw [← h2]
          exact noFlight_setTask _ _ _ (noFlight_wakeRecvWaiter _ _ _ _ _
            (noFlight_setCh _ _ _ hn (fun hc0 => hn ch hmem hc0)))
        · exact absurd h (by simp)
/-- A non-blocking receive preserves the rendezvous invariant. -/
theorem noFlight_recvNow {σ : Type} (T : TaskSys σ) (sys : Sys σ)
    (t : TaskId) (s : σ) (c : ChanId) (i : Nat) (sys' : Sys σ)
    (h : recvNow T sys t s c i = some sys') (hn : noFlight sys) :
    noFlight sys' := by
  unfold recvNow at h
  split at h
  · exact absurd h (by simp)
  next ch hch =>
    have hmem : ch ∈ sys.chans := List.getElem?_mem hch
    split at h
    next v bs hbuf =>
      split at h
      · injection h with h2
        rw [← h2]
        refine noFlight_setTask _ _ _ (noFlight_setCh _ _ _ hn (fun hc0 => ?_))
        simp only [] at hc0
        have := hn ch hmem hc0
        rw [hbuf] at this
        exact absurd this (by simp)
      next w sq hsq =>
        injection h with h2
        rw [← h2]
        refine noFlight_setTask _ _ _ (noFlight_wakeSendWaiter _ _ _
          (noFlight_setCh _ _ _ hn (fun hc0 => ?_)))
        simp only [] at hc0
        have := hn ch hmem hc0
        rw [hbuf] at this
        exact absurd this (by simp)
    next hbuf =>
      split at h
      next w sq hsq =>
        injection h with h2
        rw [← h2]
        refine noFlight_setTask _ _ _ (noFlight_wakeSendWaiter _ _ _
          (noFlight_setCh _ _ _ hn (fun hc0 => ?_)))
        simp [hbuf]
      · split at h
        · injection h with h2
          rw [← h2]
          exact noFlight_setTask _ _ _ hn
        · exact absurd h (by simp)

/-- Draining queued receivers on close preserves the rendezvous
invariant. -/
theorem noFlight_flushReceivers {σ : Type} (T : TaskSys σ) (c : ChanId) :
    ∀ (ws : List Waiter) (sys : Sys σ), noFlight sys →
    noFlight (flushReceivers T sys c ws) := by
  intro ws
  induction ws with
  | nil => intro sys hn; exact hn
  | cons w ws ih =>
    intro sys hn
    unfold flushReceivers
    split
    · exact hn
    next ch hch =>
      have hmem : ch ∈ sys.chans := List.getElem?_mem hch
      split
      next v bs hbuf =>
        refine ih _ (noFlight_wakeRecvWaiter _ _ _ _ _
          (noFlight_setCh _ _ _ hn (fun hc0 => ?_)))
        simp only [] at hc0
        have := hn ch hmem hc0
        rw [hbuf] at this
        exact absurd this (by simp)
      next hbuf => exact ih _ (noFlight_wakeRecvWaiter _ _ _ _ _ hn)

/-- Failing queued senders on close preserves the rendezvous
invariant. -/
theorem noFlight_flushSenders {σ : Type} :
    ∀ (ws : List Waiter) (sys : Sys σ), noFlight sys →
    noFlight (flushSenders sys ws) := by
  intro ws
  induction ws with
  | nil => intro sys hn; exact hn
  | cons w ws ih =>
    intro sys hn
    exact ih _ (noFlight_failSendWaiter _ _ hn)

/-- Registering select cases preserves the rendezvous invariant. -/
theorem noFlight_registerCases {σ : Type} (t : TaskId) :
    ∀ (cases : List SCase) (sys : Sys σ) (i : Nat), noFlight sys →
    noFlight (registerCases sys t i cases) := by
  intro cases
  induction cases with
  | nil => intro sys i hn; exact hn
  | cons cs rest ih =>
    intro sys i hn
    unfold registerCases
    refine ih _ _ ?_
    split
    · exact hn
    next ch hch =>
      have hmem : ch ∈ sys.chans := List.getElem?_mem hch
      split
      · exact noFlight_setCh _ _ _ hn (fun hc0 => hn ch hmem hc0)
      · exact noFlight_setCh _ _ _ hn (fun hc0 => hn ch hmem hc0)

/-- A send operation preserves the rendezvous invariant. -/
theorem noFlight_doSend {σ : Type} (T : TaskSys σ) (sys : Sys σ)
    (t : TaskId) (s : σ) (c : ChanId) (v : Int) (hn : noFlight sys) :
    noFlight (doSend T sys t s c v) := by
  unfold doSend
  split
  next sys2 hs => exact noFlight_sendNow T sys t s c v 0 sys2 hs hn
  · split
    next ch hch =>
      have hmem : ch ∈ sys.chans := List.getElem?_mem hch
      exact noFlight_setTask _ _ _ (noFlight_setCh _ _ _ hn (fun hc0 => hn ch hmem hc0))
    · exact hn

/-- A receive operation preserves the rendezvous invariant. -/
theorem noFlight_doRecv {σ : Type} (T : TaskSys σ) (sys : Sys σ)
    (t : TaskId) (s : σ) (c : ChanId) (hn : noFlight sys) :
    noFlight (doRecv T sys t s c) := by
  unfold doRecv
  split
  next sys2 hs => exact noFlight_recvNow T sys t s c 0 sys2 hs hn
  · split
    next ch hch =>
      have hmem : ch ∈ sys.chans := List.getElem?_mem hch
      exact noFlight_setTask _ _ _ (noFlight_setCh _ _ _ hn (fun hc0 => hn ch hmem hc0))
    · exact hn

/-- A close operation preserves the rendezvous invariant. -/
theorem noFlight_doClose {σ : Type} (T : TaskSys σ) (sys : Sys σ)
    (t : TaskId) (s : σ) (c : ChanId) (hn : noFlight sys) :
    noFlight (doClose T sys t s c) := by
  unfold doClose
  split
  · exact hn
  next ch hch =>
    have hmem : ch ∈ sys.chans := List.getElem?_mem hch
    split
    · exact noFlight_setTask _ _ _ hn
    · exact noFlight_setTask _ _ _ (noFlight_flushReceivers _ _ _ _
        (noFlight_flushSenders _ _
          (noFlight_setCh _ _ _ hn (fun hc0 => hn ch hmem hc0))))

/-- Firing a select case preserves the rendezvous invariant. -/
theorem noFlight_fireCase {σ : Type} (T : TaskSys σ) (sys : Sys σ)
    (t : TaskId) (s : σ) (i : Nat) (cs : SCase) (hn : noFlight sys) :
    noFlight (fireCase T sys t s i cs) := by
  unfold fireCase
  split
  · cases hs : sendNow T sys t s cs.ch cs.val i with
    | some sys2 => simpa [hs] using noFlight_sendNow T sys t s cs.ch cs.val i sys2 hs hn
    | none => simpa [hs] using hn
  · cases hs : recvNow T sys t s cs.ch i with
    | some sys2 => simpa [hs] using noFlight_recvNow T sys t s cs.ch i sys2 hs hn
    | none => simpa [hs] using hn

/-- A select operation preserves the rendezvous invariant. -/
theorem noFlight_doSelect {σ : Type} (T : TaskSys σ) (sys : Sys σ)
    (t : TaskId) (s : σ) (cases : List SCase) (hasDefault : Bool)
    (choice : Nat) (hn : noFlight sys) :
    noFlight (doSelect T sys t s cases hasDefault choice) := by
  unfold doSelect
  cases hfil : List.filter (fun i =>
      match cases[i]? with
      | some cs => caseReady sys cs
      | none => false) (List.range cases.length) with
  | nil =>
    simp only [hfil]
    split
    · exact noFlight_setTask _ _ _ hn
    · exact noFlight_setTask _ _ _ (noFlight_registerCases _ _ _ _ hn)
  | cons j rest =>
    simp only [hfil]
    split
    next cs hcs => exact noFlight_fireCase T sys t s _ cs hn
    · exact hn

/-- A scheduler step preserves the rendezvous invariant. -/
theorem noFlight_step {σ : Type} (T : TaskSys σ) (sys : Sys σ)
    (t : TaskId) (choice : Nat) (hn : noFlight sys) :
    noFlight ((step T sys t choice).getD sys) := by
  unfold step
  split
  next s hst =>
    cases hact : T.next s with
    | aDone => simpa [hact] using noFlight_setTask sys t (.done s) hn
    | aSend c v => simpa [hact] using noFlight_doSend T sys t s c v hn
    | aRecv c => simpa [hact] using noFlight_doRecv T sys t s c hn
    | aClose c => simpa [hact] using noFlight_doClose T sys t s c hn
    | aSelect cases hasDefault =>
      simpa [hact] using noFlight_doSelect T sys t s cases hasDefault choice hn
  · exact hn

/-- Every execution preserves the rendezvous invariant. -/
theorem noFlight_execSched {σ : Type} (T : TaskSys σ) :
    ∀ (l : List (TaskId × Nat)) (sys : Sys σ), noFlight sys →
    noFlight (execSched T sys l) := by
  intro l
  induction l with
  | nil => intro sys hn; exact hn
  | cons p l ih =>
    intro sys hn
    exact ih _ (noFlight_step T sys p.1 p.2 hn)

/-- C5: rendezvous on unbuffered channels.  Starting from any system in
which every capacity-0 channel has an empty buffer, after any schedule:
(1) every capacity-0 channel still has an empty buffer — at no instant
does a value sit in flight in an unbuffered channel; and for any open
capacity-0 channel of the reached state, (2) with no sender parked a
receive cannot complete — a receive observes a value only when a send
has been invoked and its sender is present — and (3) with no receiver
parked a send cannot complete — a send's value becomes observable only
when a receive has been invoked and its receiver is present. -/
theorem unbuffered_rendezvous {σ : Type} (T : TaskSys σ) (sys : Sys σ)
    (l : List (TaskId × Nat)) (t : TaskId) (s : σ) (c : ChanId) (ch : Chn)
    (v : Int) (i : Nat) (hn : noFlight sys) :
    noFlight (execSched T sys l) ∧
    ((execSched T sys l).chans[c]? = some ch → ch.cap = 0 → ch.closed = false →
      (ch.sendq = [] → recvNow T (execSched T sys l) t s c i = none) ∧
      (ch.recvq = [] → sendNow T (execSched T sys l) t s c v i = none)) := by
  have hreach := noFlight_execSched T l sys hn
  refine ⟨hreach, fun hch hc0 hcl => ⟨fun hsq => ?_, fun hrq => ?_⟩⟩
  · have hbuf : ch.buf = [] :=
      hreach ch (List.getElem?_mem hch) hc0
    unfold recvNow
    rw [hch]
    simp [hbuf, hsq, hcl]
  · unfold sendNow
    rw [hch]
    simp [hcl, hrq, hc0]

/-- C5 witness: the rendezvous facts evaluated on a fresh unbuffered
channel with two idle tasks and the empty schedule. -/
theorem unbuffered_rendezvous_example :
    noFlight (⟨[mkChan 0], [.run (0, 0, []), .run (1, 0, [])]⟩ : Sys ScriptSt) ∧
    (noFlight (execSched (scripted fun _ _ => .aDone)
        (⟨[mkChan 0], [.run (0, 0, []), .run (1, 0, [])]⟩ : Sys ScriptSt) []) ∧
      ((execSched (scripted fun _ _ => .aDone)
          (⟨[mkChan 0], [.run (0, 0, []), .run (1, 0, [])]⟩ : Sys ScriptSt) []).chans[0]? =
            some (mkChan 0) →
        (mkChan 0).cap = 0 → (mkChan 0).closed = false →
        ((mkChan 0).sendq = [] → recvNow (scripted fun _ _ => .aDone)
          (execSched (scripted fun _ _ => .aDone)
            (⟨[mkChan 0], [.run (0, 0, []), .run (1, 0, [])]⟩ : Sys ScriptSt) [])
          0 (0, 0, []) 0 0 = none) ∧
        ((mkChan 0).recvq = [] → sendNow (scripted fun _ _ => .aDone)
          (execSched (scripted fun _ _ => .aDone)
            (⟨[mkChan 0], [.run (0, 0, []), .run (1, 0, [])]⟩ : Sys ScriptSt) [])
          0 (0, 0, []) 0 9 0 = none))) := by
  have hn : noFlight (⟨[mkChan 0], [.run (0, 0, []), .run (1, 0, [])]⟩ : Sys ScriptSt) := by
    intro ch hch
    simp only [List.mem_singleton] at hch
    subst hch
    intro hc
    rfl
  exact ⟨hn, unbuffered_rendezvous (scripted fun _ _ => .aDone)
    ⟨[mkChan 0], [.run (0, 0, []), .run (1, 0, [])]⟩ [] 0 (0, 0, []) 0 (mkChan 0) 9 0 hn⟩

/-- Scripts of the deadlock scenario: task 0 runs `select {}` (no cases,
no default), mirroring `selectDeadlock` in the fixture; task 1 is a
sibling that forever runs `select { default: }` (no cases, with
default), mirroring `selectNoOp`, so it always remains schedulable. -/
def script6 : Nat → Nat → Act := fun sid _ =>
  match sid with
  | 0 => .aSelect [] false
  | _ => .aSelect [] true

/-- Behaviour of the deadlock scenario. -/
def T6 : TaskSys ScriptSt := scripted script6

/-- Initial state of the deadlock scenario: no channels, the deadlocking
task and its sibling. -/
def sys6 : Sys ScriptSt :=
  ⟨[], [.run (0, 0, []), .run (1, 0, [])]⟩

/-- Shape of every reachable state of the deadlock scenario after the
empty select ran: task 0 is parked on an empty registration and the
sibling has completed some number of default-selects. -/
def sys6At (pc : Nat) (log : List OpRes) : Sys ScriptSt :=
  ⟨[], [.bSel [] (0, 0, []), .run (1, pc, log)]⟩

/-- Every schedule keeps the deadlock scenario within its reachable
shapes. -/
theorem sys6At_reach : ∀ (l : List (TaskId × Nat)) (pc : Nat) (log : List OpRes),
    ∃ pc2 log2, execSched T6 (sys6At pc log) l = sys6At pc2 log2 := by
  intro l
  induction l with
  | nil => intro pc log; exact ⟨pc, log, rfl⟩
  | cons p l ih =>
    intro pc log
    obtain ⟨t, choice⟩ := p
    match t with
    | 0 =>
      have h0 : step T6 (sys6At pc log) 0 choice = none := rfl
      simpa [execSched, h0] using ih pc log
    | 1 =>
      have h1 : step T6 (sys6At pc log) 1 choice =
          some (sys6At (pc + 1) (log ++ [(0, 0, false)])) := rfl
      simpa [execSched, h1] using ih (pc + 1) (log ++ [(0, 0, false)])
    | (n + 2) =>
      have h2 : step T6 (sys6At pc log) (n + 2) choice = none := rfl
      simpa [execSched, h2] using ih pc log

/-- C6: a Select with zero cases and no default blocks the calling task
forever.  After task 0 runs `select {}` it is parked with an empty
registration; under every subsequent schedule it stays parked in that
exact state — it never resumes, so no statement after the select ever
executes — while the sibling task remains schedulable (its next step
always exists). -/
theorem select_no_cases_blocks_forever :
    step T6 sys6 0 0 = some (sys6At 0 []) ∧
    ∀ l : List (TaskId × Nat),
      (execSched T6 (sys6At 0 []) l).tasks[0]? = some (.bSel [] (0, 0, [])) ∧
      step T6 (execSched T6 (sys6At 0 []) l) 1 0 ≠ none := by
  refine ⟨rfl, fun l => ?_⟩
  obtain ⟨pc2, log2, hreach⟩ := sys6At_reach l 0 []
  rw [hreach]
  exact ⟨rfl, by simp [sys6At, step, T6, scripted, script6, doSelect]⟩

/-- Teardown leaves no registration of the torn-down task anywhere: the
sweep is complete. -/
theorem noSelOf_teardown_self {σ : Type} (sys : Sys σ) (t : TaskId) :
    noSelOf (teardown sys t) t := by
  intro ch hch
  simp only [teardown, List.mem_map] at hch
  obtain ⟨ch0, _, rfl⟩ := hch
  constructor <;> intro w hw <;>
    simpa using (List.mem_filter.1 hw).2

/-- Teardown adds no registration of any task. -/
theorem noSelOf_teardown {σ : Type} (sys : Sys σ) (t j : TaskId)
    (h : noSelOf sys j) : noSelOf (teardown sys t) j := by
  intro ch hch
  simp only [teardown, List.mem_map] at hch
  obtain ⟨ch0, hch0, rfl⟩ := hch
  exact ⟨fun w hw => (h ch0 hch0).1 w (List.mem_filter.1 hw).1,
    fun w hw => (h ch0 hch0).2 w (List.mem_filter.1 hw).1⟩

/-- Task-status replacement does not affect registrations. -/
theorem noSelOf_setTask {σ : Type} (sys : Sys σ) (t : TaskId) (st : TStat σ)
    (j : TaskId) : noSelOf (sys.setTask t st) j ↔ noSelOf sys j :=
  Iff.rfl

/-- Replacing one channel by one whose queues hold no registration of
`j` preserves the absence of registrations of `j`. -/
theorem noSelOf_setCh {σ : Type} (sys : Sys σ) (c : ChanId) (ch : Chn)
    (j : TaskId) (h : noSelOf sys j)
    (hs : ∀ w ∈ ch.sendq, w.isSelOf j = false)
    (hr : ∀ w ∈ ch.recvq, w.isSelOf j = false) :
    noSelOf (sys.setCh c ch) j := by
  intro ch2 hch2
  rcases List.mem_or_eq_of_mem_set hch2 with hm | rfl
  · exact h ch2 hm
  · exact ⟨hs, hr⟩

/-- Modelled from the spec: the no-phantom-waiter invariant of
section 4.4 — a task that is not currently blocked on a select holds no
select registration in any channel's wait-queue. -/
def SelClean {σ : Type} (sys : Sys σ) : Prop :=
  ∀ j : TaskId, (∀ cs s, sys.tasks[j]? ≠ some (.bSel cs s)) → noSelOf sys j

/-- Status lookup after a replacement at a different index. -/
theorem getTask_setTask_ne {σ : Type} (sys : Sys σ) (t j : TaskId)
    (st : TStat σ) (h : t ≠ j) :
    (sys.setTask t st).tasks[j]? = sys.tasks[j]? :=
  List.getElem?_set_ne h

/-- Receiver-side wakes preserve the no-phantom-waiter invariant. -/
theorem SelClean_wakeRecvWaiter {σ : Type} (T : TaskSys σ) (sys : Sys σ)
    (w : Waiter) (v : Int) (ok : Bool) (hS : SelClean sys) :
    SelClean (wakeRecvWaiter T sys w v ok) := by
  rcases wakeRecvWaiter_cases T sys w v ok with he
    | ⟨c0, s0, st, hst, he⟩ | ⟨cs0, s0, st, hst, he⟩ <;> rw [he]
  · exact hS
  · intro j hj
    rw [noSelOf_setTask]
    by_cases hjw : w.tid = j
    · subst hjw
      -- the woken task was a plain blocked receiver, never select-blocked
      exact hS _ (fun cs s => by rw [hst]; simp)
    · rw [getTask_setTask_ne _ _ _ _ hjw] at hj
      exact hS j hj
  · intro j hj
    rw [noSelOf_setTask]
    by_cases hjw : w.tid = j
    · subst hjw
      exact noSelOf_teardown_self sys w.tid
    · rw [getTask_setTask_ne _ _ _ _ hjw] at hj
      exact noSelOf_teardown _ _ _ (hS j (by simpa [teardown] using hj))

/-- Sender-side wakes preserve the no-phantom-waiter invariant. -/
theorem SelClean_wakeSendWaiter {σ : Type} (T : TaskSys σ) (sys : Sys σ)
    (w : Waiter) (hS : SelClean sys) : SelClean (wakeSendWaiter T sys w) := by
  rcases wakeSendWaiter_cases T sys w with he
    | ⟨c0, v0, s0, st, hst, he⟩ | ⟨cs0, s0, st, hst, he⟩ <;> rw [he]
  · exact hS
  · intro j hj
    rw [noSelOf_setTask]
    by_cases hjw : w.tid = j
    · subst hjw
      exact hS _ (fun cs s => by rw [hst]; simp)
    · rw [getTask_setTask_ne _ _ _ _ hjw] at hj
      exact hS j hj
  · intro j hj
    rw [noSelOf_setTask]
    by_cases hjw : w.tid = j
    · subst hjw
      exact noSelOf_teardown_self sys w.tid
    · rw [getTask_setTask_ne _ _ _ _ hjw] at hj
      exact noSelOf_teardown _ _ _ (hS j (by simpa [teardown] using hj))

/-- Failing wakes on close preserve the no-phantom-waiter invariant. -/
theorem SelClean_failSendWaiter {σ : Type} (sys : Sys σ) (w : Waiter)
    (hS : SelClean sys) : SelClean (failSendWaiter sys w) := by
  rcases failSendWaiter_cases sys w with he
    | ⟨c0, v0, s0, st, hst, he⟩ | ⟨cs0, s0, st, hst, he⟩ <;> rw [he]
  · exact hS
  · intro j hj
    rw [noSelOf_setTask]
    by_cases hjw : w.tid = j
    · subst hjw
      exact hS _ (fun cs s => by rw [hst]; simp)
    · rw [getTask_setTask_ne _ _ _ _ hjw] at hj
      exact hS j hj
  · intro j hj
    rw [noSelOf_setTask]
    by_cases hjw : w.tid = j
    · subst hjw
      exact noSelOf_teardown_self sys w.tid
    · rw [getTask_setTask_ne _ _ _ _ hjw] at hj
      exact noSelOf_teardown _ _ _ (hS j (by simpa [teardown] using hj))

/-- Replacing a channel by one whose queues are drawn from the original
channel preserves the no-phantom-waiter invariant. -/
theorem SelClean_setCh_sub {σ : Type} (sys : Sys σ) (c : ChanId)
    (ch0 ch' : Chn) (hS : SelClean sys) (hch0 : sys.chans[c]? = some ch0)
    (hs : ∀ w ∈ ch'.sendq, w ∈ ch0.sendq)
    (hr : ∀ w ∈ ch'.recvq, w ∈ ch0.recvq) :
    SelClean (sys.setCh c ch') := by
  intro j hj
  have hmem : ch0 ∈ sys.chans := List.getElem?_mem hch0
  have hn := hS j hj
  exact noSelOf_setCh _ _ _ _ hn
    (fun w hw => (hn ch0 hmem).1 w (hs w hw))
    (fun w hw => (hn ch0 hmem).2 w (hr w hw))

/-- Replacing the status of a task that is not select-blocked preserves
the no-phantom-waiter invariant. -/
theorem SelClean_setTask_nonSel {σ : Type} (sys : Sys σ) (t : TaskId)
    (st : TStat σ) (hS : SelClean sys)
    (hprior : ∀ cs s0, sys.tasks[t]? ≠ some (.bSel cs s0)) :
    SelClean (sys.setTask t st) := by
  intro j hj
  rw [noSelOf_setTask]
  by_cases hjt : t = j
  · subst hjt
    exact hS t hprior
  · rw [getTask_setTask_ne _ _ _ _ hjt] at hj
    exact hS j hj

/-- Registration leaves the task statuses untouched. -/
theorem registerCases_tasks {σ : Type} (t : TaskId) :
    ∀ (cases : List SCase) (sys : Sys σ) (i : Nat),
    (registerCases sys t i cases).tasks = sys.tasks := by
  intro cases
  induction cases with
  | nil => intro sys i; rfl
  | cons cs rest ih =>
    intro sys i
    unfold registerCases
    rw [ih]
    split
    · rfl
    next ch hch => cases cs.dir <;> rfl

/-- Registration adds wait-queue entries of the registering task only. -/
theorem noSelOf_registerCases {σ : Type} (t j : TaskId) (hjt : t ≠ j) :
    ∀ (cases : List SCase) (sys : Sys σ) (i : Nat), noSelOf sys j →
    noSelOf (registerCases sys t i cases) j := by
  intro cases
  induction cases with
  | nil => intro sys i hn; exact hn
  | cons cs rest ih =>
    intro sys i hn
    unfold registerCases
    refine ih _ _ ?_
    split
    · exact hn
    next ch hch =>
      have hmem : ch ∈ sys.chans := List.getElem?_mem hch
      cases cs.dir with
      | dsend =>
        refine noSelOf_setCh _ _ _ _ hn (fun w hw => ?_) (fun w hw => (hn ch hmem).2 w hw)
        rcases List.mem_append.1 hw with hw | hw
        · exact (hn ch hmem).1 w hw
        · simp only [List.mem_singleton] at hw
          subst hw
          simp [Waiter.isSelOf, hjt]
      | drecv =>
        refine noSelOf_setCh _ _ _ _ hn (fun w hw => (hn ch hmem).1 w hw) (fun w hw => ?_)
        rcases List.mem_append.1 hw with hw | hw
        · exact (hn ch hmem).2 w hw
        · simp only [List.mem_singleton] at hw
          subst hw
          simp [Waiter.isSelOf, hjt]

/-- Registration followed by parking on the select preserves the
no-phantom-waiter invariant: the new registrations belong exactly to the
newly select-blocked task. -/
theorem SelClean_register_bSel {σ : Type} (sys : Sys σ) (t : TaskId)
    (cases : List SCase) (s : σ) (hS : SelClean sys)
    (ht : t < sys.tasks.length) :
    SelClean ((registerCases sys t 0 cases).setTask t (.bSel cases s)) := by
  intro j hj
  rw [noSelOf_setTask]
  by_cases hjt : t = j
  · subst hjt
    exfalso
    refine hj cases s ?_
    unfold Sys.setTask
    rw [List.getElem?_set_self (by rw [registerCases_tasks]; exact ht)]
  · rw [getTask_setTask_ne _ _ _ _ hjt, registerCases_tasks] at hj
    exact noSelOf_registerCases t j hjt cases sys 0 (hS j hj)

/-- A runnable task stays runnable across a receiver-side wake. -/
theorem run_preserved_wakeRecv {σ : Type} (T : TaskSys σ) (sys : Sys σ)
    (w : Waiter) (v : Int) (ok : Bool) (t : TaskId) (s : σ)
    (h : sys.tasks[t]? = some (.run s)) :
    (wakeRecvWaiter T sys w v ok).tasks[t]? = some (.run s) := by
  rcases wakeRecvWaiter_cases T sys w v ok with he
    | ⟨c0, s0, st, hst, he⟩ | ⟨cs0, s0, st, hst, he⟩ <;> rw [he]
  · exact h
  · have hwt : w.tid ≠ t := fun hwt => by rw [hwt, h] at hst; exact absurd hst (by simp)
    rw [getTask_setTask_ne _ _ _ _ hwt]
    exact h
  · have hwt : w.tid ≠ t := fun hwt => by rw [hwt, h] at hst; exact absurd hst (by simp)
    rw [getTask_setTask_ne _ _ _ _ hwt]
    exact h

/-- A runnable task stays runnable across a sender-side wake. -/
theorem run_preserved_wakeSend {σ : Type} (T : TaskSys σ) (sys : Sys σ)
    (w : Waiter) (t : TaskId) (s : σ)
    (h : sys.tasks[t]? = some (.run s)) :
    (wakeSendWaiter T sys w).tasks[t]? = some (.run s) := by
  rcases wakeSendWaiter_cases T sys w with he
    | ⟨c0, v0, s0, st, hst, he⟩ | ⟨cs0, s0, st, hst, he⟩ <;> rw [he]
  · exact h
  · have hwt : w.tid ≠ t := fun hwt => by rw [hwt, h] at hst; exact absurd hst (by simp)
    rw [getTask_setTask_ne _ _ _ _ hwt]
    exact h
  · have hwt : w.tid ≠ t := fun hwt => by rw [hwt, h] at hst; exact absurd hst (by simp)
    rw [getTask_setTask_ne _ _ _ _ hwt]
    exact h

/-- A runnable task stays runnable across a failing wake. -/
theorem run_preserved_failSend {σ : Type} (sys : Sys σ)
    (w : Waiter) (t : TaskId) (s : σ)
    (h : sys.tasks[t]? = some (.run s)) :
    (failSendWaiter sys w).tasks[t]? = some (.run s) := by
  rcases failSendWaiter_cases sys w with he
    | ⟨c0, v0, s0, st, hst, he⟩ | ⟨cs0, s0, st, hst, he⟩ <;> rw [he]
  · exact h
  · have hwt : w.tid ≠ t := fun hwt => by rw [hwt, h] at hst; exact absurd hst (by simp)
    rw [getTask_setTask_ne _ _ _ _ hwt]
    exact h
  · have hwt : w.tid ≠ t := fun hwt => by rw [hwt, h] at hst; exact absurd hst (by simp)
    rw [getTask_setTask_ne _ _ _ _ hwt]
    exact h

/-- A non-blocking send preserves the no-phantom-waiter invariant. -/
theorem SelClean_sendNow {σ : Type} (T : TaskSys σ) (sys : Sys σ)
    (t : TaskId) (s : σ) (c : ChanId) (v : Int) (i : Nat) (sys' : Sys σ)
    (h : sendNow T sys t s c v i = some sys') (hS : SelClean sys)
    (hrun : sys.tasks[t]? = some (.run s)) : SelClean sys' := by
  have hprior : ∀ cs s0, sys.tasks[t]? ≠ some (.bSel cs s0) := by
    intro cs s0 hx
    rw [hrun] at hx
    exact absurd hx (by simp)
  unfold sendNow at h
  split at h
  · exact absurd h (by simp)
  next ch hch =>
    split at h
    · injection h with h2
      rw [← h2]
      exact SelClean_setTask_nonSel _ _ _ hS hprior
    next hcl =>
      split at h
      next hb =>
        split at h
        · injection h with h2
          rw [← h2]
          exact SelClean_setTask_nonSel _ _ _
            (SelClean_setCh_sub _ _ _ _ hS hch (fun w hw => hw) (fun w hw => hw))
            hprior
        next w rq hrq =>
          injection h with h2
          rw [← h2]
          refine SelClean_setTask_nonSel _ _ _
            (SelClean_wakeRecvWaiter _ _ _ _ _
              (SelClean_setCh_sub _ _ _ _ hS hch (fun u hu => hu) (fun u hu => by
                rw [hrq]; exact List.mem_cons_of_mem _ hu))) ?_
          intro cs s0 hx
          have hp := run_preserved_wakeRecv T
            (sys.setCh c { ch with buf := (ch.buf ++ [v]).tail, recvq := rq })
            w ((ch.buf ++ [v]).headD 0) true t s hrun
          rw [hp] at hx
          exact absurd hx (by simp)
      next hb =>
        split at h
        next w rq hrq =>
          injection h with h2
          rw [← h2]
          refine SelClean_setTask_nonSel _ _ _
            (SelClean_wakeRecvWaiter _ _ _ _ _
              (SelClean_setCh_sub _ _ _ _ hS hch (fun u hu => hu) (fun u hu => by
                rw [hrq]; exact List.mem_cons_of_mem _ hu))) ?_
          intro cs s0 hx
          have hp := run_preserved_wakeRecv T
            (sys.setCh c { ch with recvq := rq }) w v true t s hrun
          rw [hp] at hx
          exact absurd hx (by simp)
        · exact absurd h (by simp)

/-- A non-blocking receive preserves the no-phantom-waiter invariant. -/
theorem SelClean_recvNow {σ : Type} (T : TaskSys σ) (sys : Sys σ)
    (t : TaskId) (s : σ) (c : ChanId) (i : Nat) (sys' : Sys σ)
    (h : recvNow T sys t s c i = some sys') (hS : SelClean sys)
    (hrun : sys.tasks[t]? = some (.run s)) : SelClean sys' := by
  have hprior : ∀ cs s0, sys.tasks[t]? ≠ some (.bSel cs s0) := by
    intro cs s0 hx
    rw [hrun] at hx
    exact absurd hx (by simp)
  unfold recvNow at h
  split at h
  · exact absurd h (by simp)
  next ch hch =>
    split at h
    next v bs hbuf =>
      split at h
      · injection h with h2
        rw [← h2]
        exact SelClean_setTask_nonSel _ _ _
          (SelClean_setCh_sub _ _ _ _ hS hch (fun w hw => hw) (fun w hw => hw))
          hprior
      next w sq hsq =>
        injection h with h2
        rw [← h2]
        refine SelClean_setTask_nonSel _ _ _
          (SelClean_wakeSendWaiter _ _ _
            (SelClean_setCh_sub _ _ _ _ hS hch (fun u hu => by
              rw [hsq]; exact List.mem_cons_of_mem _ hu) (fun u hu => hu))) ?_
        intro cs s0 hx
        have hp := run_preserved_wakeSend T
          (sys.setCh c { ch with buf := bs ++ [w.sval], sendq := sq }) w t s hrun
        rw [hp] at hx
        exact absurd hx (by simp)
    next hbuf =>
      split at h
      next w sq hsq =>
        injection h with h2
        rw [← h2]
        refine SelClean_setTask_nonSel _ _ _
          (SelClean_wakeSendWaiter _ _ _
            (SelClean_setCh_sub _ _ _ _ hS hch (fun u hu => by
              rw [hsq]; exact List.mem_cons_of_mem _ hu) (fun u hu => hu))) ?_
        intro cs s0 hx
        have hp := run_preserved_wakeSend T
          (sys.setCh c { ch with sendq := sq }) w t s hrun
        rw [hp] at hx
        exact absurd hx (by simp)
      · split at h
        · injection h with h2
          rw [← h2]
          exact SelClean_setTask_nonSel _ _ _ hS hprior
        · exact absurd h (by simp)

/-- Failing queued senders on close preserves the no-phantom-waiter
invariant and the runnability of the closing task. -/
theorem SelClean_flushSenders {σ : Type} :
    ∀ (ws : List Waiter) (sys : Sys σ) (t : TaskId) (s : σ),
    SelClean sys → sys.tasks[t]? = some (.run s) →
    SelClean (flushSenders sys ws) ∧
      (flushSenders sys ws).tasks[t]? = some (.run s) := by
  intro ws
  induction ws with
  | nil => intro sys t s hS hrun; exact ⟨hS, hrun⟩
  | cons w ws ih =>
    intro sys t s hS hrun
    exact ih _ t s (SelClean_failSendWaiter _ _ hS)
      (run_preserved_failSend _ _ _ _ hrun)

/-- Draining queued receivers on close preserves the no-phantom-waiter
invariant and the runnability of the closing task. -/
theorem SelClean_flushReceivers {σ : Type} (T : TaskSys σ) (c : ChanId) :
    ∀ (ws : List Waiter) (sys : Sys σ) (t : TaskId) (s : σ),
    SelClean sys → sys.tasks[t]? = some (.run s) →
    SelClean (flushReceivers T sys c ws) ∧
      (flushReceivers T sys c ws).tasks[t]? = some (.run s) := by
  intro ws
  induction ws with
  | nil => intro sys t s hS hrun; exact ⟨hS, hrun⟩
  | cons w ws ih =>
    intro sys t s hS hrun
    unfold flushReceivers
    split
    · exact ⟨hS, hrun⟩
    next ch hch =>
      split
      next v bs hbuf =>
        exact ih _ t s
          (SelClean_wakeRecvWaiter _ _ _ _ _
            (SelClean_setCh_sub _ _ _ _ hS hch (fun u hu => hu) (fun u hu => hu)))
          (run_preserved_wakeRecv _ _ _ _ _ _ _ hrun)
      next hbuf =>
        exact ih _ t s (SelClean_wakeRecvWaiter _ _ _ _ _ hS)
          (run_preserved_wakeRecv _ _ _ _ _ _ _ hrun)

/-- A send operation preserves the no-phantom-waiter invariant. -/
theorem SelClean_doSend {σ : Type} (T : TaskSys σ) (sys : Sys σ)
    (t : TaskId) (s : σ) (c : ChanId) (v : Int) (hS : SelClean sys)
    (hrun : sys.tasks[t]? = some (.run s)) :
    SelClean (doSend T sys t s c v) := by
  have hprior : ∀ cs s0, sys.tasks[t]? ≠ some (.bSel cs s0) := by
    intro cs s0 hx
    rw [hrun] at hx
    exact absurd hx (by simp)
  unfold doSend
  split
  next sys2 hs => exact SelClean_sendNow T sys t s c v 0 sys2 hs hS hrun
  · split
    next ch hch =>
      refine SelClean_setTask_nonSel _ _ _ ?_ hprior
      intro j hj
      have hn := hS j hj
      have hmem : ch ∈ sys.chans := List.getElem?_mem hch
      refine noSelOf_setCh _ _ _ _ hn (fun w hw => ?_) (fun w hw => (hn ch hmem).2 w hw)
      rcases List.mem_append.1 hw with hw | hw
      · exact (hn ch hmem).1 w hw
      · simp only [List.mem_singleton] at hw
        subst hw
        rfl
    · exact hS

/-- A receive operation preserves the no-phantom-waiter invariant. -/
theorem SelClean_doRecv {σ : Type} (T : TaskSys σ) (sys : Sys σ)
    (t : TaskId) (s : σ) (c : ChanId) (hS : SelClean sys)
    (hrun : sys.tasks[t]? = some (.run s)) :
    SelClean (doRecv T sys t s c) := by
  have hprior : ∀ cs s0, sys.tasks[t]? ≠ some (.bSel cs s0) := by
    intro cs s0 hx
    rw [hrun] at hx
    exact absurd hx (by simp)
  unfold doRecv
  split
  next sys2 hs => exact SelClean_recvNow T sys t s c 0 sys2 hs hS hrun
  · split
    next ch hch =>
      refine SelClean_setTask_nonSel _ _ _ ?_ hprior
      intro j hj
      have hn := hS j hj
      have hmem : ch ∈ sys.chans := List.getElem?_mem hch
      refine noSelOf_setCh _ _ _ _ hn (fun w hw => (hn ch hmem).1 w hw) (fun w hw => ?_)
      rcases List.mem_append.1 hw with hw | hw
      · exact (hn ch hmem).2 w hw
      · simp only [List.mem_singleton] at hw
        subst hw
        rfl
    · exact hS

/-- A close operation preserves the no-phantom-waiter invariant. -/
theorem SelClean_doClose {σ : Type} (T : TaskSys σ) (sys : Sys σ)
    (t : TaskId) (s : σ) (c : ChanId) (hS : SelClean sys)
    (hrun : sys.tasks[t]? = some (.run s)) :
    SelClean (doClose T sys t s c) := by
  have hprior : ∀ cs s0, sys.tasks[t]? ≠ some (.bSel cs s0) := by
    intro cs s0 hx
    rw [hrun] at hx
    exact absurd hx (by simp)
  unfold doClose
  split
  · exact hS
  next ch hch =>
    split
    · exact SelClean_setTask_nonSel _ _ _ hS hprior
    · have h1 : SelClean (sys.setCh c { ch with closed := true, sendq := [], recvq := [] }) :=
        SelClean_setCh_sub _ _ _ _ hS hch (fun w hw => by simp at hw) (fun w hw => by simp at hw)
      have h1run : (sys.setCh c { ch with closed := true, sendq := [], recvq := [] }).tasks[t]? =
          some (.run s) := hrun
      obtain ⟨h2, h2run⟩ := SelClean_flushSenders ch.sendq _ t s h1 h1run
      obtain ⟨h3, h3run⟩ := SelClean_flushReceivers T c ch.recvq _ t s h2 h2run
      refine SelClean_setTask_nonSel _ _ _ h3 ?_
      intro cs s0 hx
      rw [h3run] at hx
      exact absurd hx (by simp)

/-- Firing a select case preserves the no-phantom-waiter invariant. -/
theorem SelClean_fireCase {σ : Type} (T : TaskSys σ) (sys : Sys σ)
    (t : TaskId) (s : σ) (i : Nat) (cs : SCase) (hS : SelClean sys)
    (hrun : sys.tasks[t]? = some (.run s)) :
    SelClean (fireCase T sys t s i cs) := by
  unfold fireCase
  split
  · cases hs : sendNow T sys t s cs.ch cs.val i with
    | some sys2 => simpa [hs] using SelClean_sendNow T sys t s cs.ch cs.val i sys2 hs hS hrun
    | none => simpa [hs] using hS
  · cases hs : recvNow T sys t s cs.ch i with
    | some sys2 => simpa [hs] using SelClean_recvNow T sys t s cs.ch i sys2 hs hS hrun
    | none => simpa [hs] using hS

/-- A select operation preserves the no-phantom-waiter invariant. -/
theorem SelClean_doSelect {σ : Type} (T : TaskSys σ) (sys : Sys σ)
    (t : TaskId) (s : σ) (cases : List SCase) (hasDefault : Bool)
    (choice : Nat) (hS : SelClean sys)
    (hrun : sys.tasks[t]? = some (.run s)) :
    SelClean (doSelect T sys t s cases hasDefault choice) := by
  have hprior : ∀ cs s0, sys.tasks[t]? ≠ some (.bSel cs s0) := by
    intro cs s0 hx
    rw [hrun] at hx
    exact absurd hx (by simp)
  have ht : t < sys.tasks.length := (List.getElem?_eq_some.1 hrun).1
  unfold doSelect
  cases hfil : List.filter (fun i =>
      match cases[i]? with
      | some cs => caseReady sys cs
      | none => false) (List.range cases.length) with
  | nil =>
    simp only [hfil]
    split
    · exact SelClean_setTask_nonSel _ _ _ hS hprior
    · exact SelClean_register_bSel _ _ _ _ hS ht
  | cons j rest =>
    simp only [hfil]
    split
    next cs hcs => exact SelClean_fireCase T sys t s _ cs hS hrun
    · exact hS

/-- A scheduler step preserves the no-phantom-waiter invariant. -/
theorem SelClean_step {σ : Type} (T : TaskSys σ) (sys : Sys σ)
    (t : TaskId) (choice : Nat) (hS : SelClean sys) :
    SelClean ((step T sys t choice).getD sys) := by
  unfold step
  split
  next s hst =>
    have hprior : ∀ cs s0, sys.tasks[t]? ≠ some (.bSel cs s0) := by
      intro cs s0 hx
      rw [hst] at hx
      exact absurd hx (by simp)
    cases hact : T.next s with
    | aDone => simpa [hact] using SelClean_setTask_nonSel sys t (.done s) hS hprior
    | aSend c v => simpa [hact] using SelClean_doSend T sys t s c v hS hst
    | aRecv c => simpa [hact] using SelClean_doRecv T sys t s c hS hst
    | aClose c => simpa [hact] using SelClean_doClose T sys t s c hS hst
    | aSelect cases hasDefault =>
      simpa [hact] using SelClean_doSelect T sys t s cases hasDefault choice hS hst
  · exact hS

/-- Every execution preserves the no-phantom-waiter invariant. -/
theorem SelClean_execSched {σ : Type} (T : TaskSys σ) :
    ∀ (l : List (TaskId × Nat)) (sys : Sys σ), SelClean sys →
    SelClean (execSched T sys l) := by
  intro l
  induction l with
  | nil => intro sys hS; exact hS
  | cons p l ih =>
    intro sys hS
    exact ih _ (SelClean_step T sys p.1 p.2 hS)

/-- Channel `c` is permanently unready for senders: capacity 0, no
queued receiver, not closed — the shape of the unused merge channel in
the blocking-select scenario of the fixture. -/
def sendRefusedAt {σ : Type} (sys : Sys σ) (c : ChanId) : Prop :=
  ∃ ch, sys.chans[c]? = some ch ∧ ch.cap = 0 ∧ ch.recvq = [] ∧ ch.closed = false

/-- No task behaviour ever receives on channel `c`, closes `c`, or
selects with a receive case on `c` — as with `sch3` in the fixture,
which only ever appears in send cases. -/
def avoidsRecvOn {σ : Type} (T : TaskSys σ) (c : ChanId) : Prop :=
  ∀ s : σ, T.next s ≠ .aRecv c ∧ T.next s ≠ .aClose c ∧
    (∀ cases hd, T.next s = .aSelect cases hd → ∀ cs ∈ cases, cs.ch = c → cs.dir = .dsend)

/-- Replacing a task status keeps `c` unready. -/
theorem sr_setTask {σ : Type} (sys : Sys σ) (t : TaskId) (st : TStat σ)
    (c : ChanId) (h : sendRefusedAt sys c) : sendRefusedAt (sys.setTask t st) c := h

/-- Teardown keeps `c` unready. -/
theorem sr_teardown {σ : Type} (sys : Sys σ) (t : TaskId) (c : ChanId)
    (h : sendRefusedAt sys c) : sendRefusedAt (teardown sys t) c := by
  obtain ⟨ch, hch, hcap, hrq, hcl⟩ := h
  refine ⟨⟨ch.cap, ch.buf, ch.closed, ch.sendq.filter (fun w => !w.isSelOf t),
    ch.recvq.filter (fun w => !w.isSelOf t)⟩, ?_, hcap, ?_, hcl⟩
  · simp only [teardown, List.getElem?_map, hch]
    rfl
  · rw [hrq]; rfl

/-- Replacing a channel other than `c` keeps `c` unready. -/
theorem sr_setCh_ne {σ : Type} (sys : Sys σ) (cd : ChanId) (ch' : Chn)
    (c : ChanId) (hne : cd ≠ c) (h : sendRefusedAt sys c) :
    sendRefusedAt (sys.setCh cd ch') c := by
  obtain ⟨ch, hch, hcap, hrq, hcl⟩ := h
  exact ⟨ch, by rw [Sys.setCh]; simpa [List.getElem?_set_ne hne] using hch, hcap, hrq, hcl⟩

/-- Replacing channel `c` by a channel that is still unready keeps `c`
unready. -/
theorem sr_setCh_self {σ : Type} (sys : Sys σ) (ch' : Chn) (c : ChanId)
    (hlt : c < sys.chans.length) (hcap : ch'.cap = 0) (hrq : ch'.recvq = [])
    (hcl : ch'.closed = false) : sendRefusedAt (sys.setCh c ch') c :=
  ⟨ch', by rw [Sys.setCh]; simpa using List.getElem?_set_self hlt, hcap, hrq, hcl⟩

/-- Receiver-side wakes keep `c` unready. -/
theorem sr_wakeRecvWaiter {σ : Type} (T : TaskSys σ) (sys : Sys σ)
    (w : Waiter) (v : Int) (ok : Bool) (c : ChanId)
    (h : sendRefusedAt sys c) : sendRefusedAt (wakeRecvWaiter T sys w v ok) c := by
  rcases wakeRecvWaiter_cases T sys w v ok with he
    | ⟨c0, s0, st, hst, he⟩ | ⟨cs0, s0, st, hst, he⟩ <;> rw [he]
  · exact h
  · exact sr_setTask _ _ _ _ h
  · exact sr_setTask _ _ _ _ (sr_teardown _ _ _ h)

/-- Sender-side wakes keep `c` unready. -/
theorem sr_wakeSendWaiter {σ : Type} (T : TaskSys σ) (sys : Sys σ)
    (w : Waiter) (c : ChanId) (h : sendRefusedAt sys c) :
    sendRefusedAt (wakeSendWaiter T sys w) c := by
  rcases wakeSendWaiter_cases T sys w with he
    | ⟨c0, v0, s0, st, hst, he⟩ | ⟨cs0, s0, st, hst, he⟩ <;> rw [he]
  · exact h
  · exact sr_setTask _ _ _ _ h
  · exact sr_setTask _ _ _ _ (sr_teardown _ _ _ h)

/-- Failing wakes keep `c` unready. -/
theorem sr_failSendWaiter {σ : Type} (sys : Sys σ) (w : Waiter) (c : ChanId)
    (h : sendRefusedAt sys c) : sendRefusedAt (failSendWaiter sys w) c := by
  rcases failSendWaiter_cases sys w with he
    | ⟨c0, v0, s0, st, hst, he⟩ | ⟨cs0, s0, st, hst, he⟩ <;> rw [he]
  · exact h
  · exact sr_setTask _ _ _ _ h
  · exact sr_setTask _ _ _ _ (sr_teardown _ _ _ h)

/-- A non-blocking send keeps `c` unready. -/
theorem sr_sendNow {σ : Type} (T : TaskSys σ) (sys : Sys σ)
    (t : TaskId) (s : σ) (cd : ChanId) (v : Int) (i : Nat) (sys' : Sys σ)
    (c : ChanId) (h : sendNow T sys t s cd v i = some sys')
    (hP : sendRefusedAt sys c) : sendRefusedAt sys' c := by
  unfold sendNow at h
  split at h
  · exact absurd h (by simp)
  next ch hch =>
    by_cases hcd : cd = c
    · subst hcd
      obtain ⟨chP, hchP, hcap, hrq, hcl⟩ := hP
      rw [hch] at hchP
      injection hchP with hchP
      subst hchP
      rw [if_neg (by simp [hcl])] at h
      rw [if_neg (by omega)] at h
      rw [hrq] at h
      exact absurd h (by simp)
    · split at h
      · injection h with h2
        rw [← h2]
        exact sr_setTask _ _ _ _ hP
      next hcl =>
        split at h
        next hb =>
          split at h
          · injection h with h2
            rw [← h2]
            exact sr_setTask _ _ _ _ (sr_setCh_ne _ _ _ _ hcd hP)
          next w rq hrq =>
            injection h with h2
            rw [← h2]
            exact sr_setTask _ _ _ _
              (sr_wakeRecvWaiter _ _ _ _ _ _ (sr_setCh_ne _ _ _ _ hcd hP))
        next hb =>
          split at h
          next w rq hrq =>
            injection h with h2
            rw [← h2]
            exact sr_setTask _ _ _ _
              (sr_wakeRecvWaiter _ _ _ _ _ _ (sr_setCh_ne _ _ _ _ hcd hP))
          · exact absurd h (by simp)

/-- A non-blocking receive keeps `c` unready (it can only pop waiters
and buffered values, never enqueue a receiver or close). -/
theorem sr_recvNow {σ : Type} (T : TaskSys σ) (sys : Sys σ)
    (t : TaskId) (s : σ) (cd : ChanId) (i : Nat) (sys' : Sys σ)
    (c : ChanId) (h : recvNow T sys t s cd i = some sys')
    (hP : sendRefusedAt sys c) : sendRefusedAt sys' c := by
  unfold recvNow at h
  split at h
  · exact absurd h (by simp)
  next ch hch =>
    have hset : ∀ ch' : Chn, ch'.cap = ch.cap → ch'.recvq = ch.recvq →
        ch'.closed = ch.closed → sendRefusedAt (sys.setCh cd ch') c := by
      intro ch' h1 h2 h3
      by_cases hcd : cd = c
      · subst hcd
        obtain ⟨chP, hchP, hcap, hrq, hcl⟩ := hP
        rw [hch] at hchP
        injection hchP with hchP
        subst hchP
        exact sr_setCh_self _ _ _ (List.getElem?_eq_some.1 hch).1
          (by rw [h1]; exact hcap) (by rw [h2]; exact hrq) (by rw [h3]; exact hcl)
      · exact sr_setCh_ne _ _ _ _ hcd hP
    split at h
    next v bs hbuf =>
      split at h
      · injection h with h2
        rw [← h2]
        exact sr_setTask _ _ _ _ (hset _ rfl rfl rfl)
      next w sq hsq =>
        injection h with h2
        rw [← h2]
        exact sr_setTask _ _ _ _ (sr_wakeSendWaiter _ _ _ _ (hset _ rfl rfl rfl))
    next hbuf =>
      split at h
      next w sq hsq =>
        injection h with h2
        rw [← h2]
        exact sr_setTask _ _ _ _ (sr_wakeSendWaiter _ _ _ _ (hset _ rfl rfl rfl))
      · split at h
        · injection h with h2
          rw [← h2]
          exact sr_setTask _ _ _ _ hP
        · exact absurd h (by simp)

/-- Close-draining of receivers on another channel keeps `c` unready. -/
theorem sr_flushReceivers {σ : Type} (T : TaskSys σ) (cd : ChanId)
    (c : ChanId) (hcd : cd ≠ c) :
    ∀ (ws : List Waiter) (sys : Sys σ), sendRefusedAt sys c →
    sendRefusedAt (flushReceivers T sys cd ws) c := by
  intro ws
  induction ws with
  | nil => intro sys hP; exact hP
  | cons w ws ih =>
    intro sys hP
    unfold flushReceivers
    split
    · exact hP
    next ch hch =>
      split
      next v bs hbuf =>
        exact ih _ (sr_wakeRecvWaiter _ _ _ _ _ _ (sr_setCh_ne _ _ _ _ hcd hP))
      next hbuf => exact ih _ (sr_wakeRecvWaiter _ _ _ _ _ _ hP)

/-- Failing senders on close keeps `c` unready. -/
theorem sr_flushSenders {σ : Type} (c : ChanId) :
    ∀ (ws : List Waiter) (sys : Sys σ), sendRefusedAt sys c →
    sendRefusedAt (flushSenders sys ws) c := by
  intro ws
  induction ws with
  | nil => intro sys hP; exact hP
  | cons w ws ih =>
    intro sys hP
    exact ih _ (sr_failSendWaiter _ _ _ hP)

/-- Registering select cases whose every case on `c` is a send keeps `c`
unready. -/
theorem sr_registerCases {σ : Type} (t : TaskId) (c : ChanId) :
    ∀ (cases : List SCase) (sys : Sys σ) (i : Nat),
    (∀ cs ∈ cases, cs.ch = c → cs.dir = .dsend) →
    sendRefusedAt sys c →
    sendRefusedAt (registerCases sys t i cases) c := by
  intro cases
  induction cases with
  | nil => intro sys i _ hP; exact hP
  | cons cs rest ih =>
    intro sys i hok hP
    unfold registerCases
    refine ih _ _ (fun u hu hc => hok u (by simp [hu]) hc) ?_
    split
    · exact hP
    next ch hch =>
      by_cases hcd : cs.ch = c
      · have hdir : cs.dir = .dsend := hok cs (by simp) hcd
        rw [hdir]
        subst hcd
        obtain ⟨chP, hchP, hcap, hrq, hcl⟩ := hP
        rw [hch] at hchP
        injection hchP with hchP
        subst hchP
        exact sr_setCh_self _ _ _ (List.getElem?_eq_some.1 hch).1 hcap hrq hcl
      · cases cs.dir with
        | dsend => exact sr_setCh_ne _ _ _ _ hcd hP
        | drecv => exact sr_setCh_ne _ _ _ _ hcd hP

/-- A send operation keeps `c` unready. -/
theorem sr_doSend {σ : Type} (T : TaskSys σ) (sys : Sys σ)
    (t : TaskId) (s : σ) (cd : ChanId) (v : Int) (c : ChanId)
    (hP : sendRefusedAt sys c) : sendRefusedAt (doSend T sys t s cd v) c := by
  unfold doSend
  split
  next sys2 hs => exact sr_sendNow T sys t s cd v 0 sys2 c hs hP
  · split
    next ch hch =>
      by_cases hcd : cd = c
      · subst hcd
        obtain ⟨chP, hchP, hcap, hrq, hcl⟩ := hP
        rw [hch] at hchP
        injection hchP with hchP
        subst hchP
        exact sr_setTask _ _ _ _
          (sr_setCh_self _ _ _ (List.getElem?_eq_some.1 hch).1 hcap hrq hcl)
      · exact sr_setTask _ _ _ _ (sr_setCh_ne _ _ _ _ hcd hP)
    · exact hP

/-- A receive operation on another channel keeps `c` unready. -/
theorem sr_doRecv {σ : Type} (T : TaskSys σ) (sys : Sys σ)
    (t : TaskId) (s : σ) (cd : ChanId) (c : ChanId) (hcd : cd ≠ c)
    (hP : sendRefusedAt sys c) : sendRefusedAt (doRecv T sys t s cd) c := by
  unfold doRecv
  split
  next sys2 hs => exact sr_recvNow T sys t s cd 0 sys2 c hs hP
  · split
    next ch hch => exact sr_setTask _ _ _ _ (sr_setCh_ne _ _ _ _ hcd hP)
    · exact hP

/-- A close of another channel keeps `c` unready. -/
theorem sr_doClose {σ : Type} (T : TaskSys σ) (sys : Sys σ)
    (t : TaskId) (s : σ) (cd : ChanId) (c : ChanId) (hcd : cd ≠ c)
    (hP : sendRefusedAt sys c) : sendRefusedAt (doClose T sys t s cd) c := by
  unfold doClose
  split
  · exact hP
  next ch hch =>
    split
    · exact sr_setTask _ _ _ _ hP
    · exact sr_setTask _ _ _ _ (sr_flushReceivers T cd c hcd ch.recvq _
        (sr_flushSenders c ch.sendq _ (sr_setCh_ne _ _ _ _ hcd hP)))

/-- Firing a select case that is a send, or a receive on another
channel, keeps `c` unready. -/
theorem sr_fireCase {σ : Type} (T : TaskSys σ) (sys : Sys σ)
    (t : TaskId) (s : σ) (i : Nat) (cs : SCase) (c : ChanId)
    (hP : sendRefusedAt sys c) : sendRefusedAt (fireCase T sys t s i cs) c := by
  unfold fireCase
  split
  · cases hs : sendNow T sys t s cs.ch cs.val i with
    | some sys2 => simpa [hs] using sr_sendNow T sys t s cs.ch cs.val i sys2 c hs hP
    | none => simpa [hs] using hP
  · cases hs : recvNow T sys t s cs.ch i with
    | some sys2 => simpa [hs] using sr_recvNow T sys t s cs.ch i sys2 c hs hP
    | none => simpa [hs] using hP

/-- A select whose cases on `c` are all sends keeps `c` unready. -/
theorem sr_doSelect {σ : Type} (T : TaskSys σ) (sys : Sys σ)
    (t : TaskId) (s : σ) (cases : List SCase) (hasDefault : Bool)
    (choice : Nat) (c : ChanId)
    (hok : ∀ cs ∈ cases, cs.ch = c → cs.dir = .dsend)
    (hP : sendRefusedAt sys c) :
    sendRefusedAt (doSelect T sys t s cases hasDefault choice) c := by
  unfold doSelect
  cases hfil : List.filter (fun i =>
      match cases[i]? with
      | some cs => caseReady sys cs
      | none => false) (List.range cases.length) with
  | nil =>
    simp only [hfil]
    split
    · exact sr_setTask _ _ _ _ hP
    · exact sr_setTask _ _ _ _ (sr_registerCases t c cases sys 0 hok hP)
  | cons j rest =>
    simp only [hfil]
    split
    next cs hcs => exact sr_fireCase T sys t s _ cs c hP
    · exact hP

/-- A scheduler step of a behaviour that never receives on or closes `c`
keeps `c` unready. -/
theorem sr_step {σ : Type} (T : TaskSys σ) (sys : Sys σ)
    (t : TaskId) (choice : Nat) (c : ChanId) (hT : avoidsRecvOn T c)
    (hP : sendRefusedAt sys c) :
    sendRefusedAt ((step T sys t choice).getD sys) c := by
  unfold step
  split
  next s hst =>
    obtain ⟨hnr, hnc, hsel⟩ := hT s
    cases hact : T.next s with
    | aDone => simpa [hact] using sr_setTask sys t (.done s) c hP
    | aSend cd v => simpa [hact] using sr_doSend T sys t s cd v c hP
    | aRecv cd =>
      have hcd : cd ≠ c := fun hcd => hnr (by rw [hact, hcd])
      simpa [hact] using sr_doRecv T sys t s cd c hcd hP
    | aClose cd =>
      have hcd : cd ≠ c := fun hcd => hnc (by rw [hact, hcd])
      simpa [hact] using sr_doClose T sys t s cd c hcd hP
    | aSelect cases hasDefault =>
      simpa [hact] using sr_doSelect T sys t s cases hasDefault choice c
        (hsel cases hasDefault hact) hP
  · exact hP

/-- Every execution of such a behaviour keeps `c` unready. -/
theorem sr_execSched {σ : Type} (T : TaskSys σ) (c : ChanId)
    (hT : avoidsRecvOn T c) :
    ∀ (l : List (TaskId × Nat)) (sys : Sys σ), sendRefusedAt sys c →
    sendRefusedAt (execSched T sys l) c := by
  intro l
  induction l with
  | nil => intro sys hP; exact hP
  | cons p l ih =>
    intro sys hP
    exact ih _ (sr_step T sys p.1 p.2 c hT hP)

/-- On an unready channel a send case can never probe ready. -/
theorem sr_caseReady_false {σ : Type} (sys : Sys σ) (c : ChanId) (v : Int)
    (hP : sendRefusedAt sys c) : caseReady sys ⟨c, .dsend, v⟩ = false := by
  obtain ⟨ch, hch, hcap, hrq, hcl⟩ := hP
  unfold caseReady
  rw [hch]
  simp [hcl, hcap, hrq]

/-- C3: select fires exactly once and leaks no registration.  Under
every schedule the no-phantom-waiter invariant is preserved: any task
that is not currently select-blocked — in particular every task that has
been resumed with its single winning case — has no select registration
left in any channel's wait-queue, so no later operation on those
channels can match a phantom waiter; teardown itself is complete
(removes every registration of the torn-down task).  Moreover, for the
repeated-select merge loop's unused channel (capacity 0, never received
from, never closed — `sch3`), every reachable state keeps it unready and
a send case on it never probes ready, so its cases never fire. -/
theorem select_exactlyOnce_no_phantom {σ : Type} (T : TaskSys σ) (sys : Sys σ)
    (l : List (TaskId × Nat)) (t : TaskId) (c : ChanId) (v : Int)
    (hS : SelClean sys) (hT : avoidsRecvOn T c) (hP : sendRefusedAt sys c) :
    SelClean (execSched T sys l) ∧
    noSelOf (teardown sys t) t ∧
    (∀ j s, (execSched T sys l).tasks[j]? = some (.run s) →
      noSelOf (execSched T sys l) j) ∧
    sendRefusedAt (execSched T sys l) c ∧
    caseReady (execSched T sys l) ⟨c, .dsend, v⟩ = false := by
  have h1 := SelClean_execSched T l sys hS
  have h4 := sr_execSched T c hT l sys hP
  refine ⟨h1, noSelOf_teardown_self sys t, ?_, h4, sr_caseReady_false _ _ _ h4⟩
  intro j s hj
  exact h1 j (fun cs s0 hx => by rw [hj] at hx; exact absurd hx (by simp))

/-- C3 witness: the phantom-freedom facts evaluated on the deadlock
scenario behaviour with one unbuffered channel. -/
theorem select_exactlyOnce_no_phantom_example :
    SelClean (⟨[mkChan 0], [.run (0, 0, []), .run (1, 0, [])]⟩ : Sys ScriptSt) ∧
    (SelClean (execSched T6 (⟨[mkChan 0], [.run (0, 0, []), .run (1, 0, [])]⟩ : Sys ScriptSt) [(1, 0)]) ∧
     noSelOf (teardown (⟨[mkChan 0], [.run (0, 0, []), .run (1, 0, [])]⟩ : Sys ScriptSt) 0) 0 ∧
     (∀ j s, (execSched T6 (⟨[mkChan 0], [.run (0, 0, []), .run (1, 0, [])]⟩ : Sys ScriptSt) [(1, 0)]).tasks[j]? = some (.run s) →
       noSelOf (execSched T6 (⟨[mkChan 0], [.run (0, 0, []), .run (1, 0, [])]⟩ : Sys ScriptSt) [(1, 0)]) j) ∧
     sendRefusedAt (execSched T6 (⟨[mkChan 0], [.run (0, 0, []), .run (1, 0, [])]⟩ : Sys ScriptSt) [(1, 0)]) 0 ∧
     caseReady (execSched T6 (⟨[mkChan 0], [.run (0, 0, []), .run (1, 0, [])]⟩ : Sys ScriptSt) [(1, 0)]) ⟨0, .dsend, 3⟩ = false) := by
  have hS : SelClean (⟨[mkChan 0], [.run (0, 0, []), .run (1, 0, [])]⟩ : Sys ScriptSt) := by
    intro j hj ch hch
    simp only [List.mem_singleton] at hch
    subst hch
    exact ⟨by simp [mkChan], by simp [mkChan]⟩
  have hT : avoidsRecvOn T6 0 := by
    rintro ⟨sid, pc, log⟩
    cases sid with
    | zero =>
      refine ⟨by simp [T6, scripted, script6], by simp [T6, scripted, script6], ?_⟩
      intro cases hd h cs hcs
      have : ([] : List SCase) = cases := by
        have h2 : Act.aSelect [] false = .aSelect cases hd := h
        injection h2
      rw [← this] at hcs
      exact absurd hcs (List.not_mem_nil cs)
    | succ n =>
      refine ⟨by simp [T6, scripted, script6], by simp [T6, scripted, script6], ?_⟩
      intro cases hd h cs hcs
      have : ([] : List SCase) = cases := by
        have h2 : Act.aSelect [] true = .aSelect cases hd := h
        injection h2
      rw [← this] at hcs
      exact absurd hcs (List.not_mem_nil cs)
  have hP : sendRefusedAt (⟨[mkChan 0], [.run (0, 0, []), .run (1, 0, [])]⟩ : Sys ScriptSt) 0 :=
    ⟨mkChan 0, rfl, rfl, rfl, rfl⟩
  exact ⟨hS, select_exactlyOnce_no_phantom T6
    ⟨[mkChan 0], [.run (0, 0, []), .run (1, 0, [])]⟩ [(1, 0)] 0 0 3 hS hT hP⟩

/-- Local state of the multi-sender scenario tasks: a sender with its
list of pending values (`fastsender` sends n then n+1), or the slow
receiver with its remaining receive count and running sum. -/
inductive St8 where
  | snd (pend : List Int)
  | rcv (k : Nat) (acc : Int)
deriving DecidableEq, Repr

/-- Behaviour of the multi-sender scenario: each sender sends its
pending values on channel 0 in order and finishes; the receiver performs
its receives on channel 0, accumulating the sum. -/
def T8 : TaskSys St8 where
  next := fun s =>
    match s with
    | .snd [] => .aDone
    | .snd (v :: _) => .aSend 0 v
    | .rcv 0 _ => .aDone
    | .rcv (_ + 1) _ => .aRecv 0
  after := fun s _ v _ =>
    match s with
    | .snd pend => .snd pend.tail
    | .rcv k acc => .rcv (k - 1) (acc + v)

/-- Initial state of the multi-sender scenario: one unbuffered channel,
three fastsenders with values (10,11), (23,24), (40,41) and the slow
receiver performing six receives. -/
def sys8 : Sys St8 :=
  ⟨[mkChan 0],
   [.run (.snd [10, 11]), .run (.snd [23, 24]), .run (.snd [40, 41]),
    .run (.rcv 6 0)]⟩

/-- Phase of a sender task: running with pending values, parked carrying
its current value, or done. -/
inductive SPh where
  | toS (pend : List Int)
  | wS (v : Int) (rest : List Int)
  | dS
deriving DecidableEq, Repr

/-- Task status of a sender phase. -/
def SPh.stat : SPh → TStat St8
  | .toS pend => .run (.snd pend)
  | .wS v rest => .bSend 0 v (.snd (v :: rest))
  | .dS => .done (.snd [])

/-- Values a sender phase has not yet delivered. -/
def SPh.pend : SPh → List Int
  | .toS pend => pend
  | .wS v rest => v :: rest
  | .dS => []

/-- Whether the sender phase is parked in the wait-queue. -/
def SPh.isW : SPh → Bool
  | .wS _ _ => true
  | _ => false

/-- Value carried by a parked sender phase. -/
def SPh.wval : SPh → Int
  | .wS v _ => v
  | _ => 0

/-- Phase of the receiver task: running with a remaining count, parked
mid-receive, or done. -/
inductive RPh where
  | toR (k : Nat) (acc : Int)
  | wR (k : Nat) (acc : Int)
  | dR (acc : Int)
deriving DecidableEq, Repr

/-- Task status of a receiver phase. -/
def RPh.stat : RPh → TStat St8
  | .toR k acc => .run (.rcv k acc)
  | .wR k acc => .bRecv 0 (.rcv (k + 1) acc)
  | .dR acc => .done (.rcv 0 acc)

/-- Receives the receiver phase still has to perform. -/
def RPh.rem : RPh → Nat
  | .toR k _ => k
  | .wR k _ => k + 1
  | .dR _ => 0

/-- Sum accumulated by the receiver phase so far. -/
def RPh.acc : RPh → Int
  | .toR _ a => a
  | .wR _ a => a
  | .dR a => a

/-- Receive wait-queue induced by the receiver phase. -/
def RPh.rq : RPh → List Waiter
  | .wR _ _ => [.wRecv 3]
  | _ => []

/-- Sender phase of the task with the given index. -/
def pOf (p0 p1 p2 : SPh) : Nat → SPh := fun n =>
  match n with
  | 0 => p0
  | 1 => p1
  | _ => p2

/-- State of the multi-sender scenario determined by the three sender
phases, the receiver phase, and the FIFO order `q` of parked senders. -/
def mk8 (p0 p1 p2 : SPh) (rp : RPh) (q : List Nat) : Sys St8 :=
  ⟨[⟨0, [], false, q.map (fun n => .wSend n ((pOf p0 p1 p2 n).wval)), rp.rq⟩],
   [p0.stat, p1.stat, p2.stat, rp.stat]⟩

/-- Invariant of the multi-sender scenario: the state is determined by
consistent phases, the parked-sender order lists exactly the parked
senders, the receiver's remaining receives count the undelivered values,
and the accumulated sum plus the undelivered values is the total 149. -/
def Inv8 (sys : Sys St8) : Prop :=
  ∃ p0 p1 p2 rp q,
    sys = mk8 p0 p1 p2 rp q ∧
    q.Nodup ∧
    (∀ n ∈ q, n < 3) ∧
    (∀ n, n < 3 → ((pOf p0 p1 p2 n).isW = true ↔ n ∈ q)) ∧
    rp.rem = p0.pend.length + p1.pend.length + p2.pend.length ∧
    rp.acc + p0.pend.sum + p1.pend.sum + p2.pend.sum = 149 ∧
    (∀ k a, rp = .wR k a → q = [])

/-- The initial state satisfies the invariant. -/
theorem Inv8_init : Inv8 sys8 := by
  refine ⟨.toS [10, 11], .toS [23, 24], .toS [40, 41], .toR 6 0, [],
    ?_, ?_, ?_, ?_, ?_, ?_, ?_⟩
  · rfl
  · exact List.nodup_nil
  · intro n hn; exact absurd hn (List.not_mem_nil n)
  · intro n hn
    match n with
    | 0 => simp [pOf, SPh.isW]
    | 1 => simp [pOf, SPh.isW]
    | 2 => simp [pOf, SPh.isW]
  · rfl
  · rfl
  · intro k a h; exact absurd h (by simp)

/-- The invariant forces the finished receiver's sum to be 149. -/
theorem Inv8_final (sys : Sys St8) (hI : Inv8 sys) (acc : Int)
    (h : sys.tasks[3]? = some (.run (.rcv 0 acc)) ∨
      sys.tasks[3]? = some (.done (.rcv 0 acc))) : acc = 149 := by
  obtain ⟨p0, p1, p2, rp, q, rfl, hnd, hb, hiw, hrem, hsum, hmx⟩ := hI
  have h3 : (mk8 p0 p1 p2 rp q).tasks[3]? = some rp.stat := rfl
  have hz : rp.rem = 0 ∧ rp.acc = acc := by
    rcases h with h | h <;> rw [h3] at h <;> injection h with h <;>
      cases rp <;> simp [RPh.stat] at h <;>
      simp [RPh.rem, RPh.acc, h]
  have hp0 : p0.pend.length = 0 := by omega
  have hp1 : p1.pend.length = 0 := by omega
  have hp2 : p2.pend.length = 0 := by omega
  rw [List.length_eq_zero] at hp0 hp1 hp2
  rw [hp0, hp1, hp2] at hsum
  simp at hsum
  rw [← hz.2]
  omega

/-- Phase lookup is unchanged at indexes other than 0. -/
theorem pOf_congr0 (p0 p0' p1 p2 : SPh) (n : Nat) (hn : n ≠ 0) :
    pOf p0' p1 p2 n = pOf p0 p1 p2 n := by
  match n with
  | 0 => exact absurd rfl hn
  | 1 => rfl
  | m + 2 => rfl

/-- Phase lookup is unchanged at indexes other than 1. -/
theorem pOf_congr1 (p0 p1 p1' p2 : SPh) (n : Nat) (hn : n ≠ 1) :
    pOf p0 p1' p2 n = pOf p0 p1 p2 n := by
  match n with
  | 0 => rfl
  | 1 => exact absurd rfl hn
  | m + 2 => rfl

/-- Phase lookup is unchanged at in-range indexes other than 2. -/
theorem pOf_congr2 (p0 p1 p2 p2' : SPh) (n : Nat) (hn : n < 3) (hn2 : n ≠ 2) :
    pOf p0 p1 p2' n = pOf p0 p1 p2 n := by
  match n with
  | 0 => rfl
  | 1 => rfl
  | 2 => exact absurd rfl hn2
  | m + 3 => omega

theorem Inv8_step3 (p0 p1 p2 : SPh) (rp : RPh) (q : List Nat) (choice : Nat)
    (hnd : q.Nodup) (hb : ∀ n ∈ q, n < 3)
    (hiw : ∀ n, n < 3 → ((pOf p0 p1 p2 n).isW = true ↔ n ∈ q))
    (hrem : rp.rem = p0.pend.length + p1.pend.length + p2.pend.length)
    (hsum : rp.acc + p0.pend.sum + p1.pend.sum + p2.pend.sum = 149)
    (hmx : ∀ k a, rp = .wR k a → q = []) :
    Inv8 ((step T8 (mk8 p0 p1 p2 rp q) 3 choice).getD (mk8 p0 p1 p2 rp q)) := by
  rcases rp with ⟨k, a⟩ | ⟨k, a⟩ | a
  · -- receiver runnable
    cases k with
    | zero =>
      have hstep : step T8 (mk8 p0 p1 p2 (.toR 0 a) q) 3 choice =
          some (mk8 p0 p1 p2 (.dR a) q) := by
        simp [step, mk8, RPh.stat, RPh.rq, T8, Sys.setTask, SPh.stat]
      rw [hstep, Option.getD_some]
      exact ⟨p0, p1, p2, .dR a, q, rfl, hnd, hb, hiw,
        by simpa [RPh.rem] using hrem, by simpa [RPh.acc] using hsum,
        fun k2 a2 h => absurd h (by simp)⟩
    | succ k =>
      cases hq : q with
      | nil =>
        subst hq
        have hstep : step T8 (mk8 p0 p1 p2 (.toR (k + 1) a) []) 3 choice =
            some (mk8 p0 p1 p2 (.wR k a) []) := by
          simp [step, mk8, RPh.stat, RPh.rq, T8, doRecv, recvNow,
            Sys.setCh, Sys.setTask, SPh.stat]
        rw [hstep, Option.getD_some]
        refine ⟨p0, p1, p2, .wR k a, [], rfl, hnd, hb, hiw,
          by simpa [RPh.rem] using hrem, by simpa [RPh.acc] using hsum,
          fun k2 a2 h => rfl⟩
      | cons n q' =>
        subst hq
        have hn3 : n < 3 := hb n (by simp)
        have hniw : (pOf p0 p1 p2 n).isW = true := (hiw n hn3).2 (by simp)
        have hnq' : n ∉ q' := (List.nodup_cons.1 hnd).1
        match n, hn3 with
        | 0, _ =>
          obtain ⟨v', rest', hp0⟩ : ∃ v' rest', p0 = .wS v' rest' := by
            cases p0 with
            | wS v' rest' => exact ⟨v', rest', rfl⟩
            | toS pend => simp [pOf, SPh.isW] at hniw
            | dS => simp [pOf, SPh.isW] at hniw
          subst hp0
          have hmap : q'.map (fun m => Waiter.wSend m ((pOf (SPh.toS rest') p1 p2 m).wval)) =
              q'.map (fun m => Waiter.wSend m ((pOf (SPh.wS v' rest') p1 p2 m).wval)) :=
            List.map_congr_left (fun m hm => by
              rw [pOf_congr0 (SPh.wS v' rest') _ _ _ m (fun h => hnq' (h ▸ hm))])
          have hstep : step T8 (mk8 (.wS v' rest') p1 p2 (.toR (k + 1) a) (0 :: q')) 3 choice =
              some (mk8 (.toS rest') p1 p2 (.toR k (a + v')) q') := by
            simp only [step, mk8, RPh.stat, RPh.rq, T8, doRecv, recvNow, SPh.stat]
            simp only [List.map_cons, pOf, SPh.wval, List.getElem?_cons_zero,
              List.getElem?_cons_succ, Waiter.sval, wakeSendWaiter,
              Sys.setCh, Sys.setTask, List.set_cons_zero]
            simp only [List.set_cons_succ, List.set_cons_zero, Option.some.injEq,
              Sys.mk.injEq, Chn.mk.injEq, List.cons.injEq, and_true, true_and]
            constructor
            · exact List.map_congr_left (fun m hm => by
                match m, hm with
                | 0, hm => exact absurd hm hnq'
                | 1, _ => rfl
                | m + 2, _ => rfl)
            · exact ⟨rfl, rfl⟩
          rw [hstep, Option.getD_some]
          refine ⟨.toS rest', p1, p2, .toR k (a + v'), q', rfl,
            (List.nodup_cons.1 hnd).2, fun m hm => hb m (by simp [hm]), ?_, ?_, ?_,
            fun k2 a2 h => absurd h (by simp)⟩
          · intro m hm
            match m, hm with
            | 0, _ => simp [pOf, SPh.isW, hnq']
            | 1, _ => simpa [pOf] using
                ((hiw 1 (by omega)).trans (by simp [List.mem_cons]))
            | 2, _ => simpa [pOf] using
                ((hiw 2 (by omega)).trans (by simp [List.mem_cons]))
          · have := hrem
            simp only [RPh.rem, SPh.pend, List.length_cons] at this ⊢
            omega
          · have := hsum
            simp only [RPh.acc, SPh.pend, List.sum_cons] at this ⊢
            omega
        | 1, _ =>
          obtain ⟨v', rest', hpi⟩ : ∃ v' rest', p1 = .wS v' rest' := by
            cases p1 with
            | wS v' rest' => exact ⟨v', rest', rfl⟩
            | toS pend => simp [pOf, SPh.isW] at hniw
            | dS => simp [pOf, SPh.isW] at hniw
          subst hpi
          have hstep : step T8 (mk8 p0 (.wS v' rest') p2 (.toR (k + 1) a) (1 :: q')) 3 choice =
              some (mk8 p0 (.toS rest') p2 (.toR k (a + v')) q') := by
            simp only [step, mk8, RPh.stat, RPh.rq, T8, doRecv, recvNow, SPh.stat]
            simp only [List.map_cons, pOf, SPh.wval, List.getElem?_cons_zero,
              List.getElem?_cons_succ, Waiter.sval, wakeSendWaiter,
              Sys.setCh, Sys.setTask, List.set_cons_zero]
            simp only [List.set_cons_succ, List.set_cons_zero, Option.some.injEq,
              Sys.mk.injEq, Chn.mk.injEq, List.cons.injEq, and_true, true_and]
            constructor
            · exact List.map_congr_left (fun m hm => by
                match m, hm with
                | 0, _ => rfl
                | 1, hm => exact absurd hm hnq'
                | 2, hm => rfl
                | m + 3, hm => rfl)
            · exact ⟨rfl, rfl⟩
          rw [hstep, Option.getD_some]
          refine ⟨p0, .toS rest', p2, .toR k (a + v'), q', rfl,
            (List.nodup_cons.1 hnd).2, fun m hm => hb m (by simp [hm]), ?_, ?_, ?_,
            fun k2 a2 h => absurd h (by simp)⟩
          · intro m hm
            match m, hm with
            | 1, _ => simp [pOf, SPh.isW, hnq']
            | 0, _ => simpa [pOf] using
                ((hiw 0 (by omega)).trans (by simp [List.mem_cons]))
            | 2, _ => simpa [pOf] using
                ((hiw 2 (by omega)).trans (by simp [List.mem_cons]))
          · have := hrem
            simp only [RPh.rem, SPh.pend, List.length_cons] at this ⊢
            omega
          · have := hsum
            simp only [RPh.acc, SPh.pend, List.sum_cons] at this ⊢
            omega
        | 2, _ =>
          obtain ⟨v', rest', hpi⟩ : ∃ v' rest', p2 = .wS v' rest' := by
            cases p2 with
            | wS v' rest' => exact ⟨v', rest', rfl⟩
            | toS pend => simp [pOf, SPh.isW] at hniw
            | dS => simp [pOf, SPh.isW] at hniw
          subst hpi
          have hstep : step T8 (mk8 p0 p1 (.wS v' rest') (.toR (k + 1) a) (2 :: q')) 3 choice =
              some (mk8 p0 p1 (.toS rest') (.toR k (a + v')) q') := by
            simp only [step, mk8, RPh.stat, RPh.rq, T8, doRecv, recvNow, SPh.stat]
            simp only [List.map_cons, pOf, SPh.wval, List.getElem?_cons_zero,
              List.getElem?_cons_succ, Waiter.sval, wakeSendWaiter,
              Sys.setCh, Sys.setTask, List.set_cons_zero]
            simp only [List.set_cons_succ, List.set_cons_zero, Option.some.injEq,
              Sys.mk.injEq, Chn.mk.injEq, List.cons.injEq, and_true, true_and]
            constructor
            · exact List.map_congr_left (fun m hm => by
                match m, hm with
                | 0, _ => rfl
                | 1, hm => rfl
                | 2, hm => exact absurd hm hnq'
                | m + 3, hm => exact absurd (hb (m + 3) (by simp [hm])) (by omega))
            · exact ⟨rfl, rfl⟩
          rw [hstep, Option.getD_some]
          refine ⟨p0, p1, .toS rest', .toR k (a + v'), q', rfl,
            (List.nodup_cons.1 hnd).2, fun m hm => hb m (by simp [hm]), ?_, ?_, ?_,
            fun k2 a2 h => absurd h (by simp)⟩
          · intro m hm
            match m, hm with
            | 2, _ => simp [pOf, SPh.isW, hnq']
            | 0, _ => simpa [pOf] using
                ((hiw 0 (by omega)).trans (by simp [List.mem_cons]))
            | 1, _ => simpa [pOf] using
                ((hiw 1 (by omega)).trans (by simp [List.mem_cons]))
          · have := hrem
            simp only [RPh.rem, SPh.pend, List.length_cons] at this ⊢
            omega
          · have := hsum
            simp only [RPh.acc, SPh.pend, List.sum_cons] at this ⊢
            omega
  · -- receiver parked: not schedulable
    have hstep : step T8 (mk8 p0 p1 p2 (.wR k a) q) 3 choice = none := rfl
    rw [hstep, Option.getD_none]
    exact ⟨p0, p1, p2, .wR k a, q, rfl, hnd, hb, hiw, hrem, hsum, hmx⟩
  · -- receiver done
    have hstep : step T8 (mk8 p0 p1 p2 (.dR a) q) 3 choice = none := rfl
    rw [hstep, Option.getD_none]
    exact ⟨p0, p1, p2, .dR a, q, rfl, hnd, hb, hiw, hrem, hsum, hmx⟩

theorem Inv8_step0 (p0 p1 p2 : SPh) (rp : RPh) (q : List Nat) (choice : Nat)
    (hnd : q.Nodup) (hb : ∀ n ∈ q, n < 3)
    (hiw : ∀ n, n < 3 → ((pOf p0 p1 p2 n).isW = true ↔ n ∈ q))
    (hrem : rp.rem = p0.pend.length + p1.pend.length + p2.pend.length)
    (hsum : rp.acc + p0.pend.sum + p1.pend.sum + p2.pend.sum = 149)
    (hmx : ∀ k a, rp = .wR k a → q = []) :
    Inv8 ((step T8 (mk8 p0 p1 p2 rp q) 0 choice).getD (mk8 p0 p1 p2 rp q)) := by
  rcases p0 with pend | ⟨v, rest⟩ | _
  · have hq0 : 0 ∉ q := fun h0 => by
      have := (hiw 0 (by omega)).2 h0
      cases pend <;> simp [pOf, SPh.isW] at this
    cases pend with
    | nil =>
      have hstep : step T8 (mk8 (.toS []) p1 p2 rp q) 0 choice =
          some (mk8 .dS p1 p2 rp q) := by
        simp [step, mk8, SPh.stat, T8, Sys.setTask, pOf, SPh.wval]
        intro m hm
        match m, hm with
        | 0, hm => exact absurd hm hq0
        | 1, _ => rfl
        | m + 2, _ => rfl
      rw [hstep, Option.getD_some]
      refine ⟨.dS, p1, p2, rp, q, rfl, hnd, hb, ?_,
        by simpa [SPh.pend] using hrem, by simpa [SPh.pend] using hsum, hmx⟩
      intro m hm
      match m, hm with
      | 0, _ => simp [pOf, SPh.isW, hq0]
      | 1, _ => simpa [pOf] using hiw 1 (by omega)
      | 2, _ => simpa [pOf] using hiw 2 (by omega)
    | cons v rest =>
      rcases rp with ⟨k, a⟩ | ⟨k, a⟩ | a
      · -- receiver runnable; the sender parks FIFO behind the queue
        have hstep : step T8 (mk8 (.toS (v :: rest)) p1 p2 (.toR k a) q) 0 choice =
            some (mk8 (.wS v rest) p1 p2 (.toR k a) (q ++ [0])) := by
          simp [step, mk8, SPh.stat, RPh.stat, RPh.rq, T8, doSend, sendNow,
            Sys.setCh, Sys.setTask, pOf, SPh.wval]
          intro m hm
          match m, hm with
          | 0, hm => exact absurd hm hq0
          | 1, _ => rfl
          | m + 2, _ => rfl
        rw [hstep, Option.getD_some]
        refine ⟨.wS v rest, p1, p2, .toR k a, q ++ [0], rfl, ?_, ?_, ?_, ?_, ?_,
          fun k2 a2 h => absurd h (by simp)⟩
        · exact List.nodup_append.2 ⟨hnd, List.nodup_singleton 0,
            fun x hx hx0 => by simp at hx0; subst hx0; exact hq0 hx⟩
        · intro n hn
          rcases List.mem_append.1 hn with hn | hn
          · exact hb n hn
          · simp at hn; omega
        · intro m hm
          match m, hm with
          | 0, _ => simp [pOf, SPh.isW]
          | 1, _ => simpa [pOf] using ((hiw 1 (by omega)).trans (by simp))
          | 2, _ => simpa [pOf] using ((hiw 2 (by omega)).trans (by simp))
        · simpa [SPh.pend] using hrem
        · simpa [SPh.pend] using hsum
      · -- receiver parked: rendezvous hand-off
        have hq : q = [] := hmx k a rfl
        subst hq
        have hstep : step T8 (mk8 (.toS (v :: rest)) p1 p2 (.wR k a) []) 0 choice =
            some (mk8 (.toS rest) p1 p2 (.toR k (a + v)) []) := by
          simp [step, mk8, SPh.stat, RPh.stat, RPh.rq, T8, doSend, sendNow,
            wakeRecvWaiter, Sys.setCh, Sys.setTask, pOf, SPh.wval]
        rw [hstep, Option.getD_some]
        refine ⟨.toS rest, p1, p2, .toR k (a + v), [], rfl, hnd, hb, ?_, ?_, ?_,
          fun k2 a2 h => absurd h (by simp)⟩
        · intro m hm
          match m, hm with
          | 0, _ => simpa [pOf, SPh.isW] using (hiw 0 (by omega))
          | 1, _ => simpa [pOf] using hiw 1 (by omega)
          | 2, _ => simpa [pOf] using hiw 2 (by omega)
        · have := hrem
          simp only [RPh.rem, SPh.pend, List.length_cons] at this ⊢
          omega
        · have := hsum
          simp only [RPh.acc, SPh.pend, List.sum_cons] at this ⊢
          omega
      · -- receiver done with sends pending: impossible by counting
        exfalso
        simp only [RPh.rem, SPh.pend, List.length_cons] at hrem
        omega
  · have hstep : step T8 (mk8 (.wS v rest) p1 p2 rp q) 0 choice = none := rfl
    rw [hstep, Option.getD_none]
    exact ⟨.wS v rest, p1, p2, rp, q, rfl, hnd, hb, hiw, hrem, hsum, hmx⟩
  · have hstep : step T8 (mk8 .dS p1 p2 rp q) 0 choice = none := rfl
    rw [hstep, Option.getD_none]
    exact ⟨.dS, p1, p2, rp, q, rfl, hnd, hb, hiw, hrem, hsum, hmx⟩

/-- Stepping sender task 1 preserves the invariant. -/
theorem Inv8_step1 (p0 p1 p2 : SPh) (rp : RPh) (q : List Nat) (choice : Nat)
    (hnd : q.Nodup) (hb : ∀ n ∈ q, n < 3)
    (hiw : ∀ n, n < 3 → ((pOf p0 p1 p2 n).isW = true ↔ n ∈ q))
    (hrem : rp.rem = p0.pend.length + p1.pend.length + p2.pend.length)
    (hsum : rp.acc + p0.pend.sum + p1.pend.sum + p2.pend.sum = 149)
    (hmx : ∀ k a, rp = .wR k a → q = []) :
    Inv8 ((step T8 (mk8 p0 p1 p2 rp q) 1 choice).getD (mk8 p0 p1 p2 rp q)) := by
  rcases p1 with pend | ⟨v, rest⟩ | _
  · have hq1 : 1 ∉ q := fun h1 => by
      have := (hiw 1 (by omega)).2 h1
      cases pend <;> simp [pOf, SPh.isW] at this
    cases pend with
    | nil =>
      have hstep : step T8 (mk8 p0 (.toS []) p2 rp q) 1 choice =
          some (mk8 p0 .dS p2 rp q) := by
        simp [step, mk8, SPh.stat, T8, Sys.setTask, pOf, SPh.wval]
        intro m hm
        match m, hm with
        | 0, _ => rfl
        | 1, hm => exact absurd hm hq1
        | m + 2, _ => rfl
      rw [hstep, Option.getD_some]
      refine ⟨p0, .dS, p2, rp, q, rfl, hnd, hb, ?_,
        by simpa [SPh.pend] using hrem, by simpa [SPh.pend] using hsum, hmx⟩
      intro m hm
      match m, hm with
      | 0, _ => simpa [pOf] using hiw 0 (by omega)
      | 1, _ => simp [pOf, SPh.isW, hq1]
      | 2, _ => simpa [pOf] using hiw 2 (by omega)
    | cons v rest =>
      rcases rp with ⟨k, a⟩ | ⟨k, a⟩ | a
      · have hstep : step T8 (mk8 p0 (.toS (v :: rest)) p2 (.toR k a) q) 1 choice =
            some (mk8 p0 (.wS v rest) p2 (.toR k a) (q ++ [1])) := by
          simp [step, mk8, SPh.stat, RPh.stat, RPh.rq, T8, doSend, sendNow,
            Sys.setCh, Sys.setTask, pOf, SPh.wval]
          intro m hm
          match m, hm with
          | 0, _ => rfl
          | 1, hm => exact absurd hm hq1
          | m + 2, _ => rfl
        rw [hstep, Option.getD_some]
        refine ⟨p0, .wS v rest, p2, .toR k a, q ++ [1], rfl, ?_, ?_, ?_, ?_, ?_,
          fun k2 a2 h => absurd h (by simp)⟩
        · exact List.nodup_append.2 ⟨hnd, List.nodup_singleton 1,
            fun x hx hx1 => by simp at hx1; subst hx1; exact hq1 hx⟩
        · intro n hn
          rcases List.mem_append.1 hn with hn | hn
          · exact hb n hn
          · simp at hn; omega
        · intro m hm
          match m, hm with
          | 0, _ => simpa [pOf] using ((hiw 0 (by omega)).trans (by simp))
          | 1, _ => simp [pOf, SPh.isW]
          | 2, _ => simpa [pOf] using ((hiw 2 (by omega)).trans (by simp))
        · simpa [SPh.pend] using hrem
        · simpa [SPh.pend] using hsum
      · have hq : q = [] := hmx k a rfl
        subst hq
        have hstep : step T8 (mk8 p0 (.toS (v :: rest)) p2 (.wR k a) []) 1 choice =
            some (mk8 p0 (.toS rest) p2 (.toR k (a + v)) []) := by
          simp [step, mk8, SPh.stat, RPh.stat, RPh.rq, T8, doSend, sendNow,
            wakeRecvWaiter, Sys.setCh, Sys.setTask, pOf, SPh.wval]
        rw [hstep, Option.getD_some]
        refine ⟨p0, .toS rest, p2, .toR k (a + v), [], rfl, hnd, hb, ?_, ?_, ?_,
          fun k2 a2 h => absurd h (by simp)⟩
        · intro m hm
          match m, hm with
          | 0, _ => simpa [pOf] using hiw 0 (by omega)
          | 1, _ => simpa [pOf, SPh.isW] using (hiw 1 (by omega))
          | 2, _ => simpa [pOf] using hiw 2 (by omega)
        · have := hrem
          simp only [RPh.rem, SPh.pend, List.length_cons] at this ⊢
          omega
        · have := hsum
          simp only [RPh.acc, SPh.pend, List.sum_cons] at this ⊢
          omega
      · exfalso
        simp only [RPh.rem, SPh.pend, List.length_cons] at hrem
        omega
  · have hstep : step T8 (mk8 p0 (.wS v rest) p2 rp q) 1 choice = none := rfl
    rw [hstep, Option.getD_none]
    exact ⟨p0, .wS v rest, p2, rp, q, rfl, hnd, hb, hiw, hrem, hsum, hmx⟩
  · have hstep : step T8 (mk8 p0 .dS p2 rp q) 1 choice = none := rfl
    rw [hstep, Option.getD_none]
    exact ⟨p0, .dS, p2, rp, q, rfl, hnd, hb, hiw, hrem, hsum, hmx⟩

/-- Stepping sender task 2 preserves the invariant. -/
theorem Inv8_step2 (p0 p1 p2 : SPh) (rp : RPh) (q : List Nat) (choice : Nat)
    (hnd : q.Nodup) (hb : ∀ n ∈ q, n < 3)
    (hiw : ∀ n, n < 3 → ((pOf p0 p1 p2 n).isW = true ↔ n ∈ q))
    (hrem : rp.rem = p0.pend.length + p1.pend.length + p2.pend.length)
    (hsum : rp.acc + p0.pend.sum + p1.pend.sum + p2.pend.sum = 149)
    (hmx : ∀ k a, rp = .wR k a → q = []) :
    Inv8 ((step T8 (mk8 p0 p1 p2 rp q) 2 choice).getD (mk8 p0 p1 p2 rp q)) := by
  rcases p2 with pend | ⟨v, rest⟩ | _
  · have hq2 : 2 ∉ q := fun h2 => by
      have := (hiw 2 (by omega)).2 h2
      cases pend <;> simp [pOf, SPh.isW] at this
    cases pend with
    | nil =>
      have hstep : step T8 (mk8 p0 p1 (.toS []) rp q) 2 choice =
          some (mk8 p0 p1 .dS rp q) := by
        simp [step, mk8, SPh.stat, T8, Sys.setTask, pOf, SPh.wval]
        intro m hm
        match m, hm with
        | 0, _ => rfl
        | 1, _ => rfl
        | 2, hm => exact absurd hm hq2
        | m + 3, hm => exact absurd (hb _ hm) (by omega)
      rw [hstep, Option.getD_some]
      refine ⟨p0, p1, .dS, rp, q, rfl, hnd, hb, ?_,
        by simpa [SPh.pend] using hrem, by simpa [SPh.pend] using hsum, hmx⟩
      intro m hm
      match m, hm with
      | 0, _ => simpa [pOf] using hiw 0 (by omega)
      | 1, _ => simpa [pOf] using hiw 1 (by omega)
      | 2, _ => simp [pOf, SPh.isW, hq2]
    | cons v rest =>
      rcases rp with ⟨k, a⟩ | ⟨k, a⟩ | a
      · have hstep : step T8 (mk8 p0 p1 (.toS (v :: rest)) (.toR k a) q) 2 choice =
            some (mk8 p0 p1 (.wS v rest) (.toR k a) (q ++ [2])) := by
          simp [step, mk8, SPh.stat, RPh.stat, RPh.rq, T8, doSend, sendNow,
            Sys.setCh, Sys.setTask, pOf, SPh.wval]
          intro m hm
          match m, hm with
          | 0, _ => rfl
          | 1, _ => rfl
          | 2, hm => exact absurd hm hq2
          | m + 3, hm => exact absurd (hb _ hm) (by omega)
        rw [hstep, Option.getD_some]
        refine ⟨p0, p1, .wS v rest, .toR k a, q ++ [2], rfl, ?_, ?_, ?_, ?_, ?_,
          fun k2 a2 h => absurd h (by simp)⟩
        · exact List.nodup_append.2 ⟨hnd, List.nodup_singleton 2,
            fun x hx hx2 => by simp at hx2; subst hx2; exact hq2 hx⟩
        · intro n hn
          rcases List.mem_append.1 hn with hn | hn
          · exact hb n hn
          · simp at hn; omega
        · intro m hm
          match m, hm with
          | 0, _ => simpa [pOf] using ((hiw 0 (by omega)).trans (by simp))
          | 1, _ => simpa [pOf] using ((hiw 1 (by omega)).trans (by simp))
          | 2, _ => simp [pOf, SPh.isW]
        · simpa [SPh.pend] using hrem
        · simpa [SPh.pend] using hsum
      · have hq : q = [] := hmx k a rfl
        subst hq
        have hstep : step T8 (mk8 p0 p1 (.toS (v :: rest)) (.wR k a) []) 2 choice =
            some (mk8 p0 p1 (.toS rest) (.toR k (a + v)) []) := by
          simp [step, mk8, SPh.stat, RPh.stat, RPh.rq, T8, doSend, sendNow,
            wakeRecvWaiter, Sys.setCh, Sys.setTask, pOf, SPh.wval]
        rw [hstep, Option.getD_some]
        refine ⟨p0, p1, .toS rest, .toR k (a + v), [], rfl, hnd, hb, ?_, ?_, ?_,
          fun k2 a2 h => absurd h (by simp)⟩
        · intro m hm
          match m, hm with
          | 0, _ => simpa [pOf] using hiw 0 (by omega)
          | 1, _ => simpa [pOf] using hiw 1 (by omega)
          | 2, _ => simpa [pOf, SPh.isW] using (hiw 2 (by omega))
        · have := hrem
          simp only [RPh.rem, SPh.pend, List.length_cons] at this ⊢
          omega
        · have := hsum
          simp only [RPh.acc, SPh.pend, List.sum_cons] at this ⊢
          omega
      · exfalso
        simp only [RPh.rem, SPh.pend, List.length_cons] at hrem
        omega
  · have hstep : step T8 (mk8 p0 p1 (.wS v rest) rp q) 2 choice = none := rfl
    rw [hstep, Option.getD_none]
    exact ⟨p0, p1, .wS v rest, rp, q, rfl, hnd, hb, hiw, hrem, hsum, hmx⟩
  · have hstep : step T8 (mk8 p0 p1 .dS rp q) 2 choice = none := rfl
    rw [hstep, Option.getD_none]
    exact ⟨p0, p1, .dS, rp, q, rfl, hnd, hb, hiw, hrem, hsum, hmx⟩

/-- Any single scheduled step preserves the multi-sender invariant. -/
theorem Inv8_step (sys : Sys St8) (hI : Inv8 sys) (t : TaskId) (choice : Nat) :
    Inv8 ((step T8 sys t choice).getD sys) := by
  obtain ⟨p0, p1, p2, rp, q, rfl, hnd, hb, hiw, hrem, hsum, hmx⟩ := hI
  match t with
  | 0 => exact Inv8_step0 p0 p1 p2 rp q choice hnd hb hiw hrem hsum hmx
  | 1 => exact Inv8_step1 p0 p1 p2 rp q choice hnd hb hiw hrem hsum hmx
  | 2 => exact Inv8_step2 p0 p1 p2 rp q choice hnd hb hiw hrem hsum hmx
  | 3 => exact Inv8_step3 p0 p1 p2 rp q choice hnd hb hiw hrem hsum hmx
  | m + 4 =>
    have hnone : (mk8 p0 p1 p2 rp q).tasks[m + 4]? = none := by
      rw [List.getElem?_eq_none]
      simp [mk8]
    have hstep : step T8 (mk8 p0 p1 p2 rp q) (m + 4) choice = none := by
      unfold step
      rw [hnone]
    rw [hstep, Option.getD_none]
    exact ⟨p0, p1, p2, rp, q, rfl, hnd, hb, hiw, hrem, hsum, hmx⟩

/-- Every schedule preserves the multi-sender invariant. -/
theorem Inv8_execSched (sys : Sys St8) (hI : Inv8 sys)
    (l : List (TaskId × Nat)) : Inv8 (execSched T8 sys l) := by
  induction l generalizing sys with
  | nil => exact hI
  | cons p rest ih => exact ih _ (Inv8_step sys hI p.1 p.2)



/-- C8: three concurrent senders deliver (10,11), (23,24) and (40,41) to
one unbuffered channel and a single receiver performs six receives; under
every interleaving of the four tasks, whenever the receiver has completed
all six receives its accumulated sum is 149, the sum of the six sent
values. -/
theorem three_senders_sum_149 (l : List (TaskId × Nat)) (acc : Int)
    (h : (execSched T8 sys8 l).tasks[3]? = some (.run (.rcv 0 acc)) ∨
      (execSched T8 sys8 l).tasks[3]? = some (.done (.rcv 0 acc))) :
    acc = 149 :=
  Inv8_final _ (Inv8_execSched sys8 Inv8_init l) acc h

/-- Witness: a concrete schedule finishes the receiver with sum 149, and
the theorem applied to it confirms the value. -/
theorem three_senders_sum_149_witness :
    ((execSched T8 sys8 [(0,0),(1,0),(2,0),(3,0),(3,0),(3,0),(3,0),(0,0),
        (0,0),(3,0),(1,0),(1,0),(3,0),(2,0),(2,0),(3,0)]).tasks[3]? =
        some (.run (.rcv 0 149)) ∨
      (execSched T8 sys8 [(0,0),(1,0),(2,0),(3,0),(3,0),(3,0),(3,0),(0,0),
        (0,0),(3,0),(1,0),(1,0),(3,0),(2,0),(2,0),(3,0)]).tasks[3]? =
        some (.done (.rcv 0 149))) ∧ (149 : Int) = 149 :=
  ⟨Or.inr rfl,
   three_senders_sum_149 [(0,0),(1,0),(2,0),(3,0),(3,0),(3,0),(3,0),(0,0),
     (0,0),(3,0),(1,0),(1,0),(3,0),(2,0),(2,0),(3,0)] 149 (Or.inr rfl)⟩
